import Mathlib

/-!
Verification of the labeller_web dataset backend (`src/app.py`): the YOLO
label codec (`read_yolo_labels` / `save_yolo_labels`), dataset-root
resolution (`yolo_root`), project opening and split selection
(`open_project`), the soft-delete / restore protocol (`remove_image` /
`restore_image`), and the export pipeline (`export_all`).

Modelling conventions:
* Paths are absolute and canonical (the code runs `norm` =
  `os.path.abspath` plus separator rewriting on every incoming path before
  use, and never hands this model the filesystem root `/`); a path is its
  list of components, so `/a/b/c` is `["a", "b", "c"]`, `os.path.dirname`
  is `List.dropLast`, and `os.path.basename` is the last component.  On
  absolute paths the string form is never empty, so the truthiness guard
  `if c` of `yolo_root` always passes.
* The filesystem is a finite association list from file paths to file
  data plus the list of existing directories.  `shutil.move` is lookup,
  delete, insert (`os.rename` overwrites an existing destination file);
  `shutil.copy2` is lookup, insert; `os.makedirs(..., exist_ok=True)`
  inserts a directory together with its ancestors.
* Python `float` arithmetic is idealized as exact rational arithmetic;
  the `%.6f` formatting used by the codec is rounding to six decimal
  places with ties to even, exact on rationals, and parsing the written
  decimal back with `float` recovers exactly that rational.
* A whitespace-separated token of a label-file line either parses as a
  number (`Token.num q`) or makes Python `float` raise (`Token.junk`).
  A text file's content is its list of lines, each a list of tokens
  (`line.strip().split()`); a zero-byte file has no lines.
-/

namespace App

/-- An absolute filesystem path as its list of components. -/
abbrev Path := List String

/-- A whitespace token of a label file: numeric (parses under Python
`float`) or junk (on which `float` raises `ValueError`). -/
inductive Token where
  | num (q : ℚ)
  | junk
deriving DecidableEq, Repr

/-- A pixel-space rectangle as the code manipulates it: the list
`[x1, y1, x2, y2, class_id]` with an integer class id (§3 of the spec:
a class id is an index into the class registry). -/
structure Rect where
  x1 : ℚ
  y1 : ℚ
  x2 : ℚ
  y2 : ℚ
  cls : ℤ
deriving DecidableEq, Repr

/-- One annotation record of the JSON manifest (`export_all`, else-branch). -/
structure Ann where
  class_id : ℤ
  bbox_xyxy : ℚ × ℚ × ℚ × ℚ
  bbox_yolo : ℚ × ℚ × ℚ × ℚ
deriving DecidableEq, Repr

/-- One per-image record of the JSON manifest (`export_all`, else-branch). -/
structure ManifestItem where
  image : String
  split : String
  width : ℤ
  height : ℤ
  annotations : List Ann
deriving DecidableEq, Repr

/-- Content of a file: a text file as its token lines, an image file as
its pixel dimensions (what `Image.open` reports), or a written JSON
manifest. -/
inductive FileData where
  | text (lines : List (List Token))
  | image (w h : ℤ)
  | manifest (items : List ManifestItem)
deriving DecidableEq, Repr

/-- The filesystem: files with their data, and the set of directories. -/
structure FS where
  files : List (Path × FileData)
  dirs : List Path
deriving DecidableEq, Repr

/-- Association-list lookup of a file path. -/
def lookupFile : List (Path × FileData) → Path → Option FileData
  | [], _ => none
  | e :: rest, p => if e.1 = p then some e.2 else lookupFile rest p

/-- Remove every entry at a path. -/
def eraseFile : List (Path × FileData) → Path → List (Path × FileData)
  | [], _ => []
  | e :: rest, p => if e.1 = p then eraseFile rest p else e :: eraseFile rest p

def FS.getFile (fs : FS) (p : Path) : Option FileData := lookupFile fs.files p

/-- Model of `os.path.isfile`. -/
def FS.isfile (fs : FS) (p : Path) : Bool := (fs.getFile p).isSome

def FS.setFile (fs : FS) (p : Path) (v : FileData) : FS :=
  { fs with files := (p, v) :: eraseFile fs.files p }

/-- Model of `os.remove` (no-op when absent; callers guard existence). -/
def FS.delFile (fs : FS) (p : Path) : FS :=
  { fs with files := eraseFile fs.files p }

/-- Model of `os.path.isdir`. -/
def FS.isdir (fs : FS) (p : Path) : Bool := decide (p ∈ fs.dirs)

/-- Model of `os.makedirs(p, exist_ok=True)`: the directory and all its
ancestors come to exist. -/
def FS.mkdirs (fs : FS) (p : Path) : FS :=
  { fs with dirs := p.inits ++ fs.dirs }

/-- Model of `shutil.move(src, dst)` with `dst` a full file path: an
atomic rename that overwrites any existing destination file.  Callers
guard `src`'s existence, so the missing-source case is a no-op here. -/
def FS.move (fs : FS) (src dst : Path) : FS :=
  match fs.getFile src with
  | none => fs
  | some v => (fs.delFile src).setFile dst v

/-- Model of `shutil.copy2(src, dst)` with `dst` a full file path. -/
def FS.copy2 (fs : FS) (src dst : Path) : FS :=
  match fs.getFile src with
  | none => fs
  | some v => fs.setFile dst v

/-- Kernel-computable lexicographic order on character lists, by code
point, the order Python string comparison uses. -/
def lexLe : List Char → List Char → Bool
  | [], _ => true
  | _ :: _, [] => false
  | a :: as, b :: bs =>
    if a.toNat < b.toNat then true
    else if b.toNat < a.toNat then false
    else lexLe as bs

/-- String order by code points (Python `sorted` order on names). -/
def strLe (a b : String) : Bool := lexLe a.data b.data

/-- Model of `os.path.splitext(name)[0]` on a basename: strip the
extension starting at the last dot, where leading dots never start an
extension. -/
def splitextStem (name : String) : String :=
  let cs := name.data
  let lead := cs.takeWhile (fun c => c == '.')
  let rest := cs.dropWhile (fun c => c == '.')
  if rest.contains '.' then
    String.mk (lead ++ ((rest.reverse.dropWhile (fun c => c != '.')).drop 1).reverse)
  else name

/-- The image-extension allow-list `ALLOWED_EXTS` of the code. -/
def ALLOWED_EXTS : List String := [".jpg", ".jpeg", ".png"]

/-- The filter `f.lower().endswith(ALLOWED_EXTS)` of `list_images`
(lower-casing a filename is per-character ASCII lower-casing). -/
def allowedName (n : String) : Bool :=
  ALLOWED_EXTS.any (fun e => e.data.isSuffixOf (n.data.map Char.toLower))

/-- Which basenames the glob pattern `*.*` lists: a name that does not
start with a dot (glob hides dotfiles) and contains a dot. -/
def globListed (n : String) : Bool :=
  match n.data with
  | [] => false
  | c :: rest => c != '.' && (c :: rest).contains '.'

/-- Basenames of the files lying directly in `dir`. -/
def dirEntryNames (fs : FS) (dir : Path) : List String :=
  (fs.files.map (fun e => e.1)).filterMap
    (fun p => if p.dropLast = dir then p.getLast? else none)

/-- Insertion into a `strLe`-sorted list of names. -/
def insertLe (x : String) : List String → List String
  | [] => [x]
  | y :: ys => if strLe x y then x :: y :: ys else y :: insertLe x ys

/-- The ascending sort `sorted(...)` applies to the matched names. -/
def sortLe : List String → List String
  | [] => []
  | x :: xs => insertLe x (sortLe xs)

/-- Model of `list_images(path)`: the files of the directory matching
`glob` pattern `*.*` whose lowercased name ends in an allowed extension,
sorted ascending (paths share the directory prefix, so sorting the full
path strings is sorting the basenames). -/
def list_images (fs : FS) (dir : Path) : List Path :=
  (sortLe (((dirEntryNames fs dir).dedup).filter
      (fun n => globListed n && allowedName n))).map
    (fun n => dir ++ [n])

/-- Rounding to the nearest integer with ties to even, the rounding of
`%.6f` formatting (idealized on rationals). -/
def roundHalfEven (q : ℚ) : ℤ :=
  let f := Int.floor q
  if q - f < 1 / 2 then f
  else if (1 : ℚ) / 2 < q - f then f + 1
  else if Even f then f else f + 1

/-- The value the decoder reads back from a `%.6f`-formatted field. -/
def round6 (q : ℚ) : ℚ := (roundHalfEven (q * 1000000) : ℚ) / 1000000

/-- Python `int()` on a float: truncation toward zero. -/
def pyInt (q : ℚ) : ℤ := if q < 0 then -Int.floor (-q) else Int.floor q

/-- The token line `save_yolo_labels` writes for one rectangle:
`f"\x7bint(cid)\x7d \x7bcx:.6f\x7d \x7bcy:.6f\x7d \x7bbw:.6f\x7d \x7bbh:.6f\x7d"`. -/
def encodeLine (w h : ℤ) (r : Rect) : List Token :=
  [Token.num (r.cls : ℚ),
   Token.num (round6 (((r.x1 + r.x2) / 2) / (w : ℚ))),
   Token.num (round6 (((r.y1 + r.y2) / 2) / (h : ℚ))),
   Token.num (round6 ((r.x2 - r.x1) / (w : ℚ))),
   Token.num (round6 ((r.y2 - r.y1) / (h : ℚ)))]

/-- The rectangle `read_yolo_labels` appends for a parsed line. -/
def lineRect (w h : ℤ) (c cx cy bw bh : ℚ) : Rect :=
  { x1 := (cx - bw / 2) * (w : ℚ)
    y1 := (cy - bh / 2) * (h : ℚ)
    x2 := (cx + bw / 2) * (w : ℚ)
    y2 := (cy + bh / 2) * (h : ℚ)
    cls := pyInt c }

/-- Outcome of `map(float, parts)` followed by the rectangle
construction on one line: `some` when all five fields parse as floats,
`none` when the shape is not five numeric tokens (on a 5-token line
that means `float` raised `ValueError`). -/
def parsedLine (w h : ℤ) (parts : List Token) : Option Rect :=
  match parts with
  | [Token.num c, Token.num cx, Token.num cy, Token.num bw, Token.num bh] =>
    some (lineRect w h c cx cy bw bh)
  | _ => none

/-- The line loop of `read_yolo_labels`: a line whose field count is not
5 is skipped (`continue`); on a 5-field line `map(float, parts)` either
parses all fields or raises `ValueError`, which aborts the whole call
(modelled as `Except.error`). -/
def read_yolo_lines (w h : ℤ) : List (List Token) → Except Unit (List Rect)
  | [] => Except.ok []
  | parts :: rest =>
    if parts.length ≠ 5 then read_yolo_lines w h rest
    else
      match parsedLine w h parts with
      | some r => (read_yolo_lines w h rest).map (fun rs => r :: rs)
      | none => Except.error ()

/-- Model of `read_yolo_labels(label_path, w, h)`: a missing file or a
zero-byte file yields `[]`; otherwise the lines are parsed.  Opening a
non-text file as UTF-8 text fails. -/
def read_yolo_labels (fs : FS) (label_path : Path) (w h : ℤ) :
    Except Unit (List Rect) :=
  match fs.getFile label_path with
  | none => Except.ok []
  | some (FileData.text []) => Except.ok []
  | some (FileData.text lines) => read_yolo_lines w h lines
  | some _ => Except.error ()

/-- Model of `save_yolo_labels(label_path, rects, w, h)`: the containing
directory is created first; an empty rectangle list deletes any existing
file and writes nothing; otherwise the encoded lines are written. -/
def save_yolo_labels (fs : FS) (label_path : Path) (rects : List Rect)
    (w h : ℤ) : FS :=
  let fs1 := fs.mkdirs label_path.dropLast
  if rects = [] then
    fs1.delFile label_path
  else
    fs1.setFile label_path (FileData.text (rects.map (encodeLine w h)))

/-- The inner predicate `ok(c)` of `yolo_root`: some `c/images/<s>`
directory exists for `s` in `train`, `val`, `test`. -/
def hasSplitImages (fs : FS) (c : Path) : Bool :=
  ["train", "val", "test"].any (fun s => fs.isdir (c ++ ["images", s]))

/-- Model of `os.listdir(p)`: the names of all entries directly under
`p`, in the (OS-determined) order the filesystem stores them. -/
def listdir (fs : FS) (p : Path) : List String :=
  ((fs.dirs.filterMap (fun d => if d.dropLast = p then d.getLast? else none)) ++
    dirEntryNames fs p).dedup

/-- Model of `yolo_root(path)`: probe the input path, its parent and its
grandparent, then each immediate subdirectory; a `listdir` failure on a
non-directory input is swallowed by the `try`/`except` and yields
`None`. -/
def yolo_root (fs : FS) (p : Path) : Option Path :=
  match [p, p.dropLast, p.dropLast.dropLast].find?
      (fun c => hasSplitImages fs c) with
  | some c => some c
  | none =>
    if fs.isdir p then
      ((listdir fs p).find?
          (fun n => fs.isdir (p ++ [n]) && hasSplitImages fs (p ++ [n]))).map
        (fun n => p ++ [n])
    else none

/-- Model of `ensure_labels(root)`: create `labels/<s>` for every
present `images/<s>`. -/
def ensure_labels (fs : FS) (root : Path) : FS :=
  ["train", "val", "test"].foldl
    (fun acc s =>
      if acc.isdir (root ++ ["images", s]) then acc.mkdirs (root ++ ["labels", s])
      else acc)
    fs

/-- The process-wide `ProjectState`: `root = []` models the unset root
`""` (no project loaded). -/
structure AppState where
  root : Path
  mode : String
  split : String
  images : List Path
deriving DecidableEq, Repr

/-- The error kinds the endpoints raise: HTTP 400 (`No project loaded` /
`Folder not found`), HTTP 404, and an unhandled exception (HTTP 500). -/
inductive Err where
  | badRequest
  | notFound
  | ioError
deriving DecidableEq, Repr

/-- Whether the requested mode is one of the split-structured modes. -/
def modeIsSplit (mode : String) : Bool := mode = "yolo" || mode = "rfdetr"

/-- The root-selection cascade of `open_project` (its lines between the
`yolo_root` call and the state update). -/
def open_root_choice (fs : FS) (path : Path) (mode : String) : Path :=
  let detected := yolo_root fs path
  if modeIsSplit mode && detected.isSome then detected.getD path
  else if modeIsSplit mode && fs.isdir (path ++ ["images"]) then path
  else if mode = "images" && detected.isSome then detected.getD path
  else path

/-- The splits whose `images/<s>` directory is present, in the probe
order `train`, `val`, `test` (the dict insertion order of
`split_files`). -/
def presentSplits (fs : FS) (rootp : Path) : List String :=
  ["train", "val", "test"].filter (fun s => fs.isdir (rootp ++ ["images", s]))

/-- The `split_files` dict of `open_project` as an ordered association
list. -/
def splitFiles (fs : FS) (rootp : Path) : List (String × List Path) :=
  (presentSplits fs rootp).map
    (fun s => (s, list_images fs (rootp ++ ["images", s])))

/-- Python `dict.get(k, [])` on the `split_files` association list. -/
def assocGet (sf : List (String × List Path)) (s : String) : List Path :=
  match sf.find? (fun e => e.1 = s) with
  | some e => e.2
  | none => []

/-- The split-selection expression of `open_project`:
`"train" if "train" in non_empty else (non_empty[0] if non_empty else
(next(iter(split_files)) if split_files else "train"))`. -/
def chooseSplit (sf : List (String × List Path)) : String :=
  let nonEmpty := (sf.filter (fun e => ¬ e.2.isEmpty)).map (fun e => e.1)
  if "train" ∈ nonEmpty then "train"
  else
    match nonEmpty with
    | s :: _ => s
    | [] =>
      match sf with
      | e :: _ => e.1
      | [] => "train"

/-- Model of the `/api/project/open` endpoint. -/
def open_project (st : AppState) (fs : FS) (path : Path) (mode : String) :
    Except Err (AppState × FS) :=
  if ¬ fs.isdir path then Except.error Err.badRequest
  else
    let rootp := open_root_choice fs path mode
    let st1 := { st with root := rootp, mode := mode }
    if fs.isdir (rootp ++ ["images"]) then
      let fs1 := ensure_labels fs rootp
      let sf := splitFiles fs1 rootp
      let split := chooseSplit sf
      Except.ok ({ st1 with split := split, images := assocGet sf split }, fs1)
    else
      let fs1 := fs.mkdirs (rootp ++ ["labels", "train"])
      Except.ok ({ st1 with split := "train", images := list_images fs rootp }, fs1)

/-- Model of the `/api/remove` endpoint: the image move is mandatory
(404 when the image file is missing), the per-extension label moves are
guarded by `os.path.isfile`, and the cached image list is refreshed only
when `images/<split>` is a directory. -/
def remove_image (st : AppState) (fs : FS) (image_path : Path) (split : String) :
    Except Err (AppState × FS × String) :=
  if st.root = [] then Except.error Err.badRequest
  else
    match fs.getFile image_path with
    | none => Except.error Err.notFound
    | some _ =>
      let filename := image_path.getLastD ""
      let base := splitextStem filename
      let rem_img_dir := st.root ++ ["removed", split, "images"]
      let rem_lbl_dir := st.root ++ ["removed", split, "labels"]
      let fs1 := (fs.mkdirs rem_img_dir).mkdirs rem_lbl_dir
      let fs2 := fs1.move image_path (rem_img_dir ++ [filename])
      let fs3 := [".txt", ".json"].foldl
        (fun acc ext =>
          let src := st.root ++ ["labels", split, base ++ ext]
          if acc.isfile src then acc.move src (rem_lbl_dir ++ [base ++ ext])
          else acc)
        fs2
      let st' :=
        if fs3.isdir (st.root ++ ["images", split]) then
          { st with images := list_images fs3 (st.root ++ ["images", split]) }
        else st
      Except.ok (st', fs3, filename)

/-- Model of the `/api/restore` endpoint: the inverse moves of
`remove_image`. -/
def restore_image (st : AppState) (fs : FS) (split filename : String) :
    Except Err (AppState × FS × String) :=
  if st.root = [] then Except.error Err.badRequest
  else
    let base := splitextStem filename
    let rem_img := st.root ++ ["removed", split, "images", filename]
    if ¬ fs.isfile rem_img then Except.error Err.notFound
    else
      let dst_img_dir := st.root ++ ["images", split]
      let dst_lbl_dir := st.root ++ ["labels", split]
      let fs1 := (fs.mkdirs dst_img_dir).mkdirs dst_lbl_dir
      let fs2 := fs1.move rem_img (dst_img_dir ++ [filename])
      let fs3 := [".txt", ".json"].foldl
        (fun acc ext =>
          let rem_lbl := st.root ++ ["removed", split, "labels", base ++ ext]
          if acc.isfile rem_lbl then acc.move rem_lbl (dst_lbl_dir ++ [base ++ ext])
          else acc)
        fs2
      let st' :=
        if fs3.isdir dst_img_dir then
          { st with images := list_images fs3 dst_img_dir }
        else st
      Except.ok (st', fs3, filename)

/-- The entry enumeration of `export_all`: every image of every present
split paired with its label path, or in flat mode every image under the
root paired with a `labels/train` label path. -/
def entriesOf (fs : FS) (root : Path) : List (String × Path × Path) :=
  if fs.isdir (root ++ ["images"]) then
    (["train", "val", "test"].filter
        (fun split => fs.isdir (root ++ ["images", split]))).flatMap
      (fun split =>
        (list_images fs (root ++ ["images", split])).map
          (fun img =>
            (split, img,
             root ++ ["labels", split, splitextStem (img.getLastD "") ++ ".txt"])))
  else
    (list_images fs root).map
      (fun img =>
        ("train", img,
         root ++ ["labels", "train", splitextStem (img.getLastD "") ++ ".txt"]))

/-- One iteration of the `YOLO (.txt)` export branch. -/
def exportYoloEntry (out_dir : Path) (fs : FS) (e : String × Path × Path) : FS :=
  let fs1 := (fs.mkdirs (out_dir ++ ["images", e.1])).mkdirs (out_dir ++ ["labels", e.1])
  let fs2 := fs1.copy2 e.2.1 (out_dir ++ ["images", e.1, e.2.1.getLastD ""])
  if fs2.isfile e.2.2 then
    fs2.copy2 e.2.2 (out_dir ++ ["labels", e.1, e.2.2.getLastD ""])
  else fs2

/-- The `YOLO (.txt)` export branch. -/
def export_yolo (out_dir : Path) (fs : FS) (entries : List (String × Path × Path)) : FS :=
  entries.foldl (fun acc e => exportYoloEntry out_dir acc e) fs

/-- The annotation record built for one rectangle by the JSON branch of
`export_all`. -/
def annOf (w h : ℤ) (r : Rect) : Ann :=
  { class_id := r.cls
    bbox_xyxy := (r.x1, r.y1, r.x2, r.y2)
    bbox_yolo := (((r.x1 + r.x2) / 2) / (w : ℚ), ((r.y1 + r.y2) / 2) / (h : ℚ),
                  (r.x2 - r.x1) / (w : ℚ), (r.y2 - r.y1) / (h : ℚ)) }

/-- `by_split.setdefault(split, []).append(item)` on an ordered
association list. -/
def appendItem (bs : List (String × List ManifestItem)) (split : String)
    (it : ManifestItem) : List (String × List ManifestItem) :=
  if bs.any (fun e => e.1 = split) then
    bs.map (fun e => if e.1 = split then (e.1, e.2 ++ [it]) else e)
  else bs ++ [(split, [it])]

/-- One iteration of the JSON-manifest export branch: copy the image,
read its dimensions (`Image.open` fails on a non-image), decode its
labels, append the manifest record. -/
def exportJsonEntry (out_dir : Path) (acc : FS × List (String × List ManifestItem))
    (e : String × Path × Path) :
    Except Err (FS × List (String × List ManifestItem)) :=
  let fs1 := (acc.1.mkdirs (out_dir ++ ["images", e.1])).mkdirs (out_dir ++ ["annotations"])
  let fs2 := fs1.copy2 e.2.1 (out_dir ++ ["images", e.1, e.2.1.getLastD ""])
  match fs2.getFile e.2.1 with
  | some (FileData.image w h) =>
    match read_yolo_labels fs2 e.2.2 w h with
    | Except.error _ => Except.error Err.ioError
    | Except.ok rects =>
      let item : ManifestItem :=
        { image := e.2.1.getLastD "", split := e.1, width := w, height := h,
          annotations := rects.map (annOf w h) }
      Except.ok (fs2, appendItem acc.2 e.1 item)
  | _ => Except.error Err.ioError

/-- The JSON-manifest export branch: process every entry, then write one
`annotations/<split>.json` per split in insertion order. -/
def export_json (out_dir : Path) (fs : FS)
    (entries : List (String × Path × Path)) : Except Err FS := do
  let acc ← entries.foldlM (fun a e => exportJsonEntry out_dir a e) (fs, [])
  Except.ok (acc.2.foldl
    (fun fsa e =>
      fsa.setFile (out_dir ++ ["annotations", e.1 ++ ".json"]) (FileData.manifest e.2))
    acc.1)

/-- Model of the `/api/export` endpoint: the format string is compared
against `"YOLO (.txt)"` once; every other format string takes the JSON
branch. -/
def export_all (st : AppState) (fs : FS) (out_dir : Path) (fmt : String) :
    Except Err (FS × ℕ) :=
  if st.root = [] then Except.error Err.badRequest
  else
    let fs1 := fs.mkdirs out_dir
    let entries := entriesOf fs1 st.root
    if fmt = "YOLO (.txt)" then
      Except.ok (export_yolo out_dir fs1 entries, entries.length)
    else
      (export_json out_dir fs1 entries).map (fun fs2 => (fs2, entries.length))

/-! Basic filesystem lemmas. -/

theorem lookupFile_eraseFile (l : List (Path × FileData)) (p q : Path) :
    lookupFile (eraseFile l p) q = if q = p then none else lookupFile l q := by
  induction l with
  | nil => simp [eraseFile, lookupFile]
  | cons e rest ih =>
    simp only [eraseFile]
    by_cases hep : e.1 = p
    · subst hep
      rw [if_pos rfl, ih]
      by_cases hqp : q = e.1
      · simp [hqp]
      · rw [if_neg hqp, if_neg hqp]
        simp only [lookupFile]
        rw [if_neg (fun h => hqp h.symm)]
    · rw [if_neg hep]
      simp only [lookupFile]
      by_cases heq : e.1 = q
      · have hqp : ¬ q = p := fun h => hep (heq.trans h)
        simp [heq, hqp, ih]
      · simp [heq, ih]

theorem getFile_setFile (fs : FS) (p : Path) (v : FileData) (q : Path) :
    (fs.setFile p v).getFile q = if q = p then some v else fs.getFile q := by
  simp only [FS.setFile, FS.getFile, lookupFile]
  by_cases h : p = q
  · rw [if_pos h, if_pos h.symm]
  · rw [if_neg h, if_neg (fun hh => h hh.symm), lookupFile_eraseFile,
      if_neg (fun hh => h hh.symm)]

theorem getFile_delFile (fs : FS) (p q : Path) :
    (fs.delFile p).getFile q = if q = p then none else fs.getFile q := by
  simp [FS.delFile, FS.getFile, lookupFile_eraseFile]

theorem getFile_mkdirs (fs : FS) (p q : Path) :
    (fs.mkdirs p).getFile q = fs.getFile q := rfl

theorem files_mkdirs (fs : FS) (p : Path) : (fs.mkdirs p).files = fs.files := rfl

theorem isdir_setFile (fs : FS) (p : Path) (v : FileData) (q : Path) :
    (fs.setFile p v).isdir q = fs.isdir q := rfl

theorem isdir_delFile (fs : FS) (p q : Path) :
    (fs.delFile p).isdir q = fs.isdir q := rfl

theorem isdir_mkdirs (fs : FS) (p q : Path) :
    (fs.mkdirs p).isdir q = (decide (q <+: p) || fs.isdir q) := by
  by_cases h : q <+: p <;>
    by_cases h2 : q ∈ fs.dirs <;>
      simp [FS.mkdirs, FS.isdir, List.mem_inits, h, h2]

theorem dirs_move (fs : FS) (src dst : Path) : (fs.move src dst).dirs = fs.dirs := by
  cases h : fs.getFile src <;> simp [FS.move, h, FS.setFile, FS.delFile]

theorem isdir_move (fs : FS) (src dst q : Path) :
    (fs.move src dst).isdir q = fs.isdir q := by
  simp [FS.isdir, dirs_move]

theorem getFile_move_of_some (fs : FS) (src dst : Path) (v : FileData)
    (h : fs.getFile src = some v) (q : Path) :
    (fs.move src dst).getFile q =
      if q = dst then some v else if q = src then none else fs.getFile q := by
  simp [FS.move, h, getFile_setFile, getFile_delFile]

theorem getFile_move_other (fs : FS) (src dst q : Path)
    (h1 : q ≠ src) (h2 : q ≠ dst) :
    (fs.move src dst).getFile q = fs.getFile q := by
  cases h : fs.getFile src with
  | none => simp [FS.move, h]
  | some v => simp [getFile_move_of_some fs src dst v h, h1, h2]

theorem isfile_iff_getFile (fs : FS) (p : Path) :
    fs.isfile p = true ↔ ∃ v, fs.getFile p = some v := by
  simp [FS.isfile, Option.isSome_iff_exists]

/-! The name order and sorting used by `list_images`. -/

theorem lexLe_total (a b : List Char) : lexLe a b = true ∨ lexLe b a = true := by
  induction a generalizing b with
  | nil => left; rfl
  | cons x xs ih =>
    cases b with
    | nil => right; rfl
    | cons y ys =>
      rcases Nat.lt_trichotomy x.toNat y.toNat with h | h | h
      · left; simp [lexLe, h]
      · have h1 : ¬ x.toNat < y.toNat := by omega
        have h2 : ¬ y.toNat < x.toNat := by omega
        rcases ih ys with h3 | h3
        · left; simp [lexLe, h1, h2, h3]
        · right; simp [lexLe, h1, h2, h3]
      · right; simp [lexLe, h]

theorem lexLe_trans (a b c : List Char) (h1 : lexLe a b = true)
    (h2 : lexLe b c = true) : lexLe a c = true := by
  induction a generalizing b c with
  | nil => rfl
  | cons x xs ih =>
    cases b with
    | nil => simp [lexLe] at h1
    | cons y ys =>
      cases c with
      | nil => simp [lexLe] at h2
      | cons z zs =>
        simp only [lexLe] at h1 h2 ⊢
        rcases Nat.lt_trichotomy x.toNat y.toNat with hxy | hxy | hxy
        · rcases Nat.lt_trichotomy y.toNat z.toNat with hyz | hyz | hyz
          · simp [show x.toNat < z.toNat by omega]
          · simp [show x.toNat < z.toNat by omega]
          · rw [if_neg (by omega), if_pos (by omega)] at h2; simp at h2
        · rcases Nat.lt_trichotomy y.toNat z.toNat with hyz | hyz | hyz
          · simp [show x.toNat < z.toNat by omega]
          · rw [if_neg (by omega), if_neg (by omega)] at h1
            rw [if_neg (by omega), if_neg (by omega)] at h2
            rw [if_neg (by omega), if_neg (by omega)]
            exact ih ys zs h1 h2
          · rw [if_neg (by omega), if_pos (by omega)] at h2; simp at h2
        · rw [if_neg (by omega), if_pos (by omega)] at h1; simp at h1

theorem lexLe_antisymm (a b : List Char) (h1 : lexLe a b = true)
    (h2 : lexLe b a = true) : a = b := by
  induction a generalizing b with
  | nil =>
    cases b with
    | nil => rfl
    | cons y ys => simp [lexLe] at h2
  | cons x xs ih =>
    cases b with
    | nil => simp [lexLe] at h1
    | cons y ys =>
      simp only [lexLe] at h1 h2
      rcases Nat.lt_trichotomy x.toNat y.toNat with hxy | hxy | hxy
      · rw [if_neg (by omega), if_pos (by omega)] at h2; simp at h2
      · rw [if_neg (by omega), if_neg (by omega)] at h1
        rw [if_neg (by omega), if_neg (by omega)] at h2
        have hc : x = y := Char.ext (UInt32.ext hxy)
        rw [hc, ih ys h1 h2]
      · rw [if_neg (by omega), if_pos (by omega)] at h1; simp at h1

theorem strLe_total (a b : String) : strLe a b = true ∨ strLe b a = true :=
  lexLe_total a.data b.data

theorem strLe_trans (a b c : String) (h1 : strLe a b = true)
    (h2 : strLe b c = true) : strLe a c = true :=
  lexLe_trans a.data b.data c.data h1 h2

theorem strLe_antisymm (a b : String) (h1 : strLe a b = true)
    (h2 : strLe b a = true) : a = b := by
  cases a; cases b
  exact congrArg String.mk (lexLe_antisymm _ _ h1 h2)

theorem insertLe_perm (x : String) (l : List String) :
    (insertLe x l).Perm (x :: l) := by
  induction l with
  | nil => simp [insertLe]
  | cons y ys ih =>
    simp only [insertLe]
    split
    · exact List.Perm.refl _
    · exact ((ih.cons y).trans (List.Perm.swap x y ys))

theorem sortLe_perm (l : List String) : (sortLe l).Perm l := by
  induction l with
  | nil => simp [sortLe]
  | cons x xs ih => exact (insertLe_perm x (sortLe xs)).trans (ih.cons x)

theorem mem_insertLe (z x : String) (l : List String) :
    z ∈ insertLe x l ↔ z = x ∨ z ∈ l := by
  rw [(insertLe_perm x l).mem_iff]; simp

theorem insertLe_pairwise (x : String) (l : List String)
    (h : l.Pairwise (fun a b => strLe a b = true)) :
    (insertLe x l).Pairwise (fun a b => strLe a b = true) := by
  induction l with
  | nil => simp [insertLe]
  | cons y ys ih =>
    rcases List.pairwise_cons.mp h with ⟨hy, hys⟩
    simp only [insertLe]
    split
    · next hxy =>
      refine List.pairwise_cons.mpr ⟨?_, h⟩
      intro z hz
      rcases List.mem_cons.mp hz with hz | hz
      · rw [hz]; exact hxy
      · exact strLe_trans x y z hxy (hy z hz)
    · next hxy =>
      have hyx : strLe y x = true := by
        rcases strLe_total x y with h' | h'
        · exact absurd h' hxy
        · exact h'
      refine List.pairwise_cons.mpr ⟨?_, ih hys⟩
      intro z hz
      rcases (mem_insertLe z x ys).mp hz with hz | hz
      · rw [hz]; exact hyx
      · exact hy z hz

theorem sortLe_pairwise (l : List String) :
    (sortLe l).Pairwise (fun a b => strLe a b = true) := by
  induction l with
  | nil => simp [sortLe]
  | cons x xs ih => exact insertLe_pairwise x (sortLe xs) ih

theorem sortLe_eq_of_perm (l₁ l₂ : List String) (h : l₁.Perm l₂) :
    sortLe l₁ = sortLe l₂ := by
  haveI : IsAntisymm String (fun a b => strLe a b = true) :=
    ⟨fun a b => strLe_antisymm a b⟩
  exact List.eq_of_perm_of_sorted
    ((sortLe_perm l₁).trans (h.trans (sortLe_perm l₂).symm))
    (sortLe_pairwise l₁) (sortLe_pairwise l₂)

/-! Codec lemmas. -/

theorem parsedLine_eq_none_of_length_ne (w h : ℤ) (parts : List Token)
    (hlen : parts.length ≠ 5) : parsedLine w h parts = none := by
  unfold parsedLine
  split
  · exact absurd rfl hlen
  · rfl

theorem read_yolo_lines_skips (w h : ℤ) (lines : List (List Token))
    (hgood : ∀ parts ∈ lines, parts.length = 5 → (parsedLine w h parts).isSome) :
    read_yolo_lines w h lines = Except.ok (lines.filterMap (parsedLine w h)) := by
  induction lines with
  | nil => rfl
  | cons parts rest ih =>
    have ihr := ih (fun q hq => hgood q (List.mem_cons_of_mem parts hq))
    by_cases h5 : parts.length = 5
    · rcases Option.isSome_iff_exists.mp
        (hgood parts (List.mem_cons_self parts rest) h5) with ⟨r, hr⟩
      simp [read_yolo_lines, h5, hr, ihr, Except.map]
    · simp [read_yolo_lines, h5, ihr,
        parsedLine_eq_none_of_length_ne w h parts h5]

/-- C9: decoding a non-existent label file or a zero-byte label file
returns the empty rectangle sequence, without error, for any
dimensions. -/
theorem read_yolo_labels_absent_or_empty (fs : FS) (p : Path) (w h : ℤ)
    (h0 : fs.getFile p = none ∨ fs.getFile p = some (FileData.text [])) :
    read_yolo_labels fs p w h = Except.ok [] := by
  rcases h0 with h0 | h0 <;> simp [read_yolo_labels, h0]

/-- Witness for C9: on the empty filesystem the label file is missing
and decoding yields the empty sequence; a zero-byte file behaves the
same. -/
theorem read_yolo_labels_absent_or_empty_witness :
    read_yolo_labels ⟨[], []⟩ ["proj", "labels", "train", "a.txt"] 640 480 =
        Except.ok [] ∧
      read_yolo_labels
          ⟨[(["proj", "labels", "train", "b.txt"], FileData.text [])], []⟩
          ["proj", "labels", "train", "b.txt"] 640 480 =
        Except.ok [] :=
  ⟨read_yolo_labels_absent_or_empty _ _ _ _ (Or.inl rfl),
   read_yolo_labels_absent_or_empty _ _ _ _ (Or.inr rfl)⟩

/-- C2: saving an empty rectangle list removes any existing file at the
label path (deletion, not truncation to an empty file) and writes no
file at any path; when no file existed, none is created. -/
theorem save_yolo_labels_empty (fs : FS) (label_path : Path) (w h : ℤ)
    (q : Path) :
    (save_yolo_labels fs label_path [] w h).getFile q =
      if q = label_path then none else fs.getFile q := by
  simp [save_yolo_labels, FS.delFile, FS.getFile, FS.mkdirs,
    lookupFile_eraseFile]

/-- C4 counterexample: a file whose second line has exactly five fields
one of which is not numeric (e.g. the line `a b c d e`) makes
`read_yolo_labels` raise `ValueError` from `map(float, parts)`, so the
well-formed first line is not decoded and the call fails instead of
degrading to fewer rectangles. -/
theorem read_yolo_labels_raises_on_bad_numeric_line :
    read_yolo_labels
      ⟨[(["proj", "labels", "train", "a.txt"],
         FileData.text
           [[Token.num 0, Token.num (1/2), Token.num (1/2),
             Token.num (1/5), Token.num (1/5)],
            [Token.junk, Token.junk, Token.junk, Token.junk, Token.junk]])],
        []⟩
      ["proj", "labels", "train", "a.txt"] 100 200 = Except.error () := by
  rfl

/-- C4 (amended): on any label file in which every line with exactly
five whitespace-separated fields has all-numeric fields, decoding never
raises: each line whose field count is not 5 is skipped silently
(`parsedLine` is `none` on any shape other than five numeric tokens),
every well-formed line is decoded, and the result is the rectangles of
the well-formed lines in order. -/
theorem read_yolo_labels_tolerant (fs : FS) (p : Path) (w h : ℤ)
    (lines : List (List Token))
    (hfile : fs.getFile p = some (FileData.text lines))
    (hgood : ∀ parts ∈ lines, parts.length = 5 → (parsedLine w h parts).isSome) :
    read_yolo_labels fs p w h = Except.ok (lines.filterMap (parsedLine w h)) := by
  cases lines with
  | nil => simp [read_yolo_labels, hfile]
  | cons l ls =>
    unfold read_yolo_labels
    rw [hfile]
    exact read_yolo_lines_skips w h (l :: ls) hgood

/-- Witness for C4: a file with a well-formed line, a 4-field line and a
6-field line decodes to exactly the one rectangle of the well-formed
line, skipping the other two. -/
theorem read_yolo_labels_tolerant_witness :
    read_yolo_labels
      ⟨[(["proj", "labels", "train", "a.txt"],
         FileData.text
           [[Token.num 0, Token.num (1/2), Token.num (1/2),
             Token.num (1/5), Token.num (1/5)],
            [Token.num 1, Token.num 2, Token.num 3, Token.num 4],
            [Token.num 1, Token.num 2, Token.num 3, Token.num 4,
             Token.num 5, Token.num 6]])], []⟩
      ["proj", "labels", "train", "a.txt"] 100 200 =
      Except.ok
        ([[Token.num 0, Token.num (1/2), Token.num (1/2),
           Token.num (1/5), Token.num (1/5)],
          [Token.num 1, Token.num 2, Token.num 3, Token.num 4],
          [Token.num 1, Token.num 2, Token.num 3, Token.num 4,
           Token.num 5, Token.num 6]].filterMap (parsedLine 100 200)) :=
  read_yolo_labels_tolerant _ _ _ _ _ rfl (by decide)

/-! Round-trip analysis of the codec (C1). -/

theorem abs_roundHalfEven_sub (x : ℚ) : |(roundHalfEven x : ℚ) - x| ≤ 1 / 2 := by
  have h0 : ((Int.floor x : ℤ) : ℚ) ≤ x := Int.floor_le x
  have h1 : x < Int.floor x + 1 := Int.lt_floor_add_one x
  simp only [roundHalfEven]
  split_ifs with ha hb hc <;> push_cast <;> rw [abs_le] <;> constructor <;> linarith

theorem abs_round6_sub (q : ℚ) : |round6 q - q| ≤ 1 / 2000000 := by
  have h := abs_roundHalfEven_sub (q * 1000000)
  unfold round6
  have e : (roundHalfEven (q * 1000000) : ℚ) / 1000000 - q
      = ((roundHalfEven (q * 1000000) : ℚ) - q * 1000000) / 1000000 := by ring
  rw [e, abs_div, abs_of_pos (by norm_num : (0 : ℚ) < 1000000)]
  linarith

theorem pyInt_intCast (n : ℤ) : pyInt (n : ℚ) = n := by
  unfold pyInt
  split_ifs with h
  · rw [← Int.cast_neg, Int.floor_intCast]; ring
  · rw [Int.floor_intCast]

/-- The rectangle the decoder reconstructs from the encoder's line. -/
def decodedRect (w h : ℤ) (r : Rect) : Rect :=
  lineRect w h (r.cls : ℚ)
    (round6 (((r.x1 + r.x2) / 2) / (w : ℚ)))
    (round6 (((r.y1 + r.y2) / 2) / (h : ℚ)))
    (round6 ((r.x2 - r.x1) / (w : ℚ)))
    (round6 ((r.y2 - r.y1) / (h : ℚ)))

theorem parsedLine_encodeLine (w h : ℤ) (r : Rect) :
    parsedLine w h (encodeLine w h r) = some (decodedRect w h r) := rfl

theorem coordErr (wq a b : ℚ) (hwq : 0 < wq)
    (ha : |a| ≤ 1 / 2000000) (hb : |b| ≤ 1 / 2000000) :
    |(a - b / 2) * wq| ≤ 3 / 4000000 * wq := by
  rw [abs_mul, abs_of_pos hwq]
  have ha' := abs_le.mp ha
  have hb' := abs_le.mp hb
  have hmid : |a - b / 2| ≤ 3 / 4000000 :=
    abs_le.mpr ⟨by linarith [ha'.1, ha'.2, hb'.1, hb'.2],
                by linarith [ha'.1, ha'.2, hb'.1, hb'.2]⟩
  exact mul_le_mul_of_nonneg_right hmid (le_of_lt hwq)

/-- The per-coordinate error of one decoded rectangle: class id exact,
each pixel coordinate within `0.75e-6 * max(W, H)`. -/
theorem decodedRect_close (w h : ℤ) (hw : 0 < w) (hh : 0 < h) (r : Rect) :
    (decodedRect w h r).cls = r.cls ∧
    |(decodedRect w h r).x1 - r.x1| ≤ 3 / 4000000 * max (w : ℚ) (h : ℚ) ∧
    |(decodedRect w h r).y1 - r.y1| ≤ 3 / 4000000 * max (w : ℚ) (h : ℚ) ∧
    |(decodedRect w h r).x2 - r.x2| ≤ 3 / 4000000 * max (w : ℚ) (h : ℚ) ∧
    |(decodedRect w h r).y2 - r.y2| ≤ 3 / 4000000 * max (w : ℚ) (h : ℚ) := by
  have hwQ : (0 : ℚ) < (w : ℚ) := by exact_mod_cast hw
  have hhQ : (0 : ℚ) < (h : ℚ) := by exact_mod_cast hh
  have hmaxw : (w : ℚ) ≤ max (w : ℚ) (h : ℚ) := le_max_left _ _
  have hmaxh : (h : ℚ) ≤ max (w : ℚ) (h : ℚ) := le_max_right _ _
  have hc : (0 : ℚ) ≤ 3 / 4000000 := by norm_num
  have acx := abs_round6_sub (((r.x1 + r.x2) / 2) / (w : ℚ))
  have acy := abs_round6_sub (((r.y1 + r.y2) / 2) / (h : ℚ))
  have abw := abs_round6_sub ((r.x2 - r.x1) / (w : ℚ))
  have abh := abs_round6_sub ((r.y2 - r.y1) / (h : ℚ))
  refine ⟨pyInt_intCast r.cls, ?_, ?_, ?_, ?_⟩
  · have e : (decodedRect w h r).x1 - r.x1 =
        ((round6 (((r.x1 + r.x2) / 2) / (w : ℚ)) - ((r.x1 + r.x2) / 2) / (w : ℚ)) -
          (round6 ((r.x2 - r.x1) / (w : ℚ)) - (r.x2 - r.x1) / (w : ℚ)) / 2) * (w : ℚ) := by
      simp only [decodedRect, lineRect]
      field_simp
      ring
    rw [e]
    exact le_trans (coordErr _ _ _ hwQ acx abw)
      (mul_le_mul_of_nonneg_left hmaxw hc)
  · have e : (decodedRect w h r).y1 - r.y1 =
        ((round6 (((r.y1 + r.y2) / 2) / (h : ℚ)) - ((r.y1 + r.y2) / 2) / (h : ℚ)) -
          (round6 ((r.y2 - r.y1) / (h : ℚ)) - (r.y2 - r.y1) / (h : ℚ)) / 2) * (h : ℚ) := by
      simp only [decodedRect, lineRect]
      field_simp
      ring
    rw [e]
    exact le_trans (coordErr _ _ _ hhQ acy abh)
      (mul_le_mul_of_nonneg_left hmaxh hc)
  · have e : (decodedRect w h r).x2 - r.x2 =
        ((round6 (((r.x1 + r.x2) / 2) / (w : ℚ)) - ((r.x1 + r.x2) / 2) / (w : ℚ)) -
          (-(round6 ((r.x2 - r.x1) / (w : ℚ)) - (r.x2 - r.x1) / (w : ℚ))) / 2) * (w : ℚ) := by
      simp only [decodedRect, lineRect]
      field_simp
      ring
    rw [e]
    refine le_trans (coordErr _ _ _ hwQ acx ?_) (mul_le_mul_of_nonneg_left hmaxw hc)
    rw [abs_neg]; exact abw
  · have e : (decodedRect w h r).y2 - r.y2 =
        ((round6 (((r.y1 + r.y2) / 2) / (h : ℚ)) - ((r.y1 + r.y2) / 2) / (h : ℚ)) -
          (-(round6 ((r.y2 - r.y1) / (h : ℚ)) - (r.y2 - r.y1) / (h : ℚ))) / 2) * (h : ℚ) := by
      simp only [decodedRect, lineRect]
      field_simp
      ring
    rw [e]
    refine le_trans (coordErr _ _ _ hhQ acy ?_) (mul_le_mul_of_nonneg_left hmaxh hc)
    rw [abs_neg]; exact abh

theorem read_save_cons (fs : FS) (p : Path) (r : Rect) (rs : List Rect)
    (w h : ℤ) :
    read_yolo_labels (save_yolo_labels fs p (r :: rs) w h) p w h =
      read_yolo_lines w h ((r :: rs).map (encodeLine w h)) := by
  simp only [save_yolo_labels, read_yolo_labels]
  rw [if_neg (by simp : ¬ (r :: rs = ([] : List Rect)))]
  rw [getFile_setFile, if_pos rfl]
  simp only [List.map]

/-- C1 (amended): encoding a rectangle list and decoding the produced
file with the same dimensions yields a list of the same length and
order, with every class id preserved exactly and every pixel coordinate
within `0.75e-6 * max(W, H)` of the original (not the claimed
`0.5e-6 * max(W, H)`: the center and extent roundings can add up to
three quarters of a pixel-scaled ulp, see the counterexample). -/
theorem save_then_read_roundtrip (fs : FS) (p : Path) (R : List Rect)
    (w h : ℤ) (hw : 0 < w) (hh : 0 < h) :
    ∃ R', read_yolo_labels (save_yolo_labels fs p R w h) p w h = Except.ok R' ∧
      List.Forall₂ (fun r r' : Rect =>
        r'.cls = r.cls ∧
        |r'.x1 - r.x1| ≤ 3 / 4000000 * max (w : ℚ) (h : ℚ) ∧
        |r'.y1 - r.y1| ≤ 3 / 4000000 * max (w : ℚ) (h : ℚ) ∧
        |r'.x2 - r.x2| ≤ 3 / 4000000 * max (w : ℚ) (h : ℚ) ∧
        |r'.y2 - r.y2| ≤ 3 / 4000000 * max (w : ℚ) (h : ℚ)) R R' := by
  cases R with
  | nil =>
    refine ⟨[], ?_, List.Forall₂.nil⟩
    apply read_yolo_labels_absent_or_empty
    left
    rw [save_yolo_labels_empty]
    simp
  | cons r rs =>
    rw [read_save_cons]
    rw [read_yolo_lines_skips w h _ (fun parts hmem h5 => by
      rcases List.mem_map.mp hmem with ⟨r0, _, rfl⟩
      rw [parsedLine_encodeLine]
      rfl)]
    refine ⟨_, rfl, ?_⟩
    rw [List.filterMap_map]
    have hcomp : (parsedLine w h ∘ encodeLine w h) = some ∘ decodedRect w h :=
      funext (fun r0 => parsedLine_encodeLine w h r0)
    rw [hcomp, List.filterMap_eq_map]
    exact List.forall₂_map_right_iff.mpr
      (List.forall₂_same.mpr (fun r0 _ => decodedRect_close w h hw hh r0))

/-- Witness for C1 (amended) at one concrete rectangle and 100 x 100
image. -/
theorem save_then_read_roundtrip_witness :
    ∃ R', read_yolo_labels
        (save_yolo_labels ⟨[], []⟩ ["proj", "labels", "train", "a.txt"]
          [⟨10, 20, 30, 40, 5⟩] 100 100)
        ["proj", "labels", "train", "a.txt"] 100 100 = Except.ok R' ∧
      List.Forall₂ (fun r r' : Rect =>
        r'.cls = r.cls ∧
        |r'.x1 - r.x1| ≤ 3 / 4000000 * max ((100 : ℤ) : ℚ) ((100 : ℤ) : ℚ) ∧
        |r'.y1 - r.y1| ≤ 3 / 4000000 * max ((100 : ℤ) : ℚ) ((100 : ℤ) : ℚ) ∧
        |r'.x2 - r.x2| ≤ 3 / 4000000 * max ((100 : ℤ) : ℚ) ((100 : ℤ) : ℚ) ∧
        |r'.y2 - r.y2| ≤ 3 / 4000000 * max ((100 : ℤ) : ℚ) ((100 : ℤ) : ℚ))
        [⟨10, 20, 30, 40, 5⟩] R' :=
  save_then_read_roundtrip ⟨[], []⟩ ["proj", "labels", "train", "a.txt"]
    [⟨10, 20, 30, 40, 5⟩] 100 100 (by norm_num) (by norm_num)

theorem roundHalfEven_eq_floor (q : ℚ) (z : ℤ) (h1 : (z : ℚ) ≤ q)
    (h2 : q - z < 1 / 2) : roundHalfEven q = z := by
  have hf : Int.floor q = z := Int.floor_eq_iff.mpr ⟨h1, by linarith⟩
  simp only [roundHalfEven, hf]
  rw [if_pos (by linarith)]

theorem roundHalfEven_eq_ceil (q : ℚ) (z : ℤ) (h1 : (z : ℚ) ≤ q)
    (h2 : q < z + 1) (h3 : 1 / 2 < q - z) : roundHalfEven q = z + 1 := by
  have hf : Int.floor q = z := Int.floor_eq_iff.mpr ⟨h1, by linarith⟩
  simp only [roundHalfEven, hf]
  rw [if_neg (by linarith), if_pos (by linarith)]

theorem round6_eq_down (q : ℚ) (z : ℤ) (h1 : (z : ℚ) ≤ q * 1000000)
    (h2 : q * 1000000 - z < 1 / 2) : round6 q = z / 1000000 := by
  unfold round6
  rw [roundHalfEven_eq_floor (q * 1000000) z h1 h2]

theorem round6_eq_up (q : ℚ) (z : ℤ) (h1 : (z : ℚ) ≤ q * 1000000)
    (h2 : q * 1000000 < z + 1) (h3 : 1 / 2 < q * 1000000 - z) :
    round6 q = (z + 1) / 1000000 := by
  unfold round6
  rw [roundHalfEven_eq_ceil (q * 1000000) z h1 h2 h3]
  push_cast
  ring

/-- C1 counterexample: for the rectangle
`(1.000006, 1000000, 11.000002, 3000000)` of class 0 in a
4000000 x 4000000 image, the decoded `x1` is `4`, an absolute error of
`2.999994` pixels, exceeding the claimed bound
`0.5e-6 * max(W, H) = 2`: the center-x rounds up by almost half an ulp
while the width rounds down by almost half an ulp, and the two errors
add. -/
theorem roundtrip_exceeds_claimed_bound :
    read_yolo_labels
        (save_yolo_labels ⟨[], []⟩ ["proj", "labels", "train", "a.txt"]
          [⟨1000006 / 1000000, 1000000, 11000002 / 1000000, 3000000, 0⟩]
          4000000 4000000)
        ["proj", "labels", "train", "a.txt"] 4000000 4000000 =
      Except.ok [⟨4, 1000000, 12, 3000000, 0⟩] ∧
    ¬ (|(4 : ℚ) - 1000006 / 1000000| ≤
        1 / 2 * (1 / 1000000) * max ((4000000 : ℤ) : ℚ) ((4000000 : ℤ) : ℚ)) := by
  constructor
  · rw [read_save_cons]
    have hcx : round6 ((((1000006 : ℚ) / 1000000 + 11000002 / 1000000) / 2) /
        ((4000000 : ℤ) : ℚ)) = 2 / 1000000 := by
      have e : (((1000006 : ℚ) / 1000000 + 11000002 / 1000000) / 2) /
          ((4000000 : ℤ) : ℚ) = 1500001 / 1000000000000 := by
        push_cast; norm_num
      rw [e]
      have := round6_eq_up ((1500001 : ℚ) / 1000000000000) 1
        (by norm_num) (by norm_num) (by norm_num)
      rw [this]; norm_num
    have hbw : round6 (((11000002 : ℚ) / 1000000 - 1000006 / 1000000) /
        ((4000000 : ℤ) : ℚ)) = 2 / 1000000 := by
      have e : ((11000002 : ℚ) / 1000000 - 1000006 / 1000000) /
          ((4000000 : ℤ) : ℚ) = 2499999 / 1000000000000 := by
        push_cast; norm_num
      rw [e]
      exact round6_eq_down ((2499999 : ℚ) / 1000000000000) 2
        (by norm_num) (by norm_num)
    have hcy : round6 ((((1000000 : ℚ) + 3000000) / 2) / ((4000000 : ℤ) : ℚ)) =
        500000 / 1000000 := by
      have e : (((1000000 : ℚ) + 3000000) / 2) / ((4000000 : ℤ) : ℚ) =
          1 / 2 := by push_cast; norm_num
      rw [e]
      exact round6_eq_down ((1 : ℚ) / 2) 500000 (by norm_num) (by norm_num)
    have hbh : round6 (((3000000 : ℚ) - 1000000) / ((4000000 : ℤ) : ℚ)) =
        500000 / 1000000 := by
      have e : ((3000000 : ℚ) - 1000000) / ((4000000 : ℤ) : ℚ) = 1 / 2 := by
        push_cast; norm_num
      rw [e]
      exact round6_eq_down ((1 : ℚ) / 2) 500000 (by norm_num) (by norm_num)
    have hd : decodedRect 4000000 4000000
        ⟨1000006 / 1000000, 1000000, 11000002 / 1000000, 3000000, 0⟩ =
        ⟨4, 1000000, 12, 3000000, 0⟩ := by
      simp only [decodedRect, lineRect]
      rw [hcx, hbw, hcy, hbh, pyInt_intCast]
      simp only [Rect.mk.injEq]
      refine ⟨by norm_num, by norm_num, by norm_num, by norm_num, trivial⟩
    rw [read_yolo_lines_skips 4000000 4000000 _ (fun parts hmem h5 => by
      rcases List.mem_map.mp hmem with ⟨r0, _, rfl⟩
      rw [parsedLine_encodeLine]
      rfl)]
    simp only [List.map, List.filterMap_cons, parsedLine_encodeLine,
      List.filterMap_nil]
    rw [hd]
  · rw [max_self]
    rw [abs_of_pos (by norm_num)]
    norm_num

/-! Root resolution (C6). -/

theorem find?_filter {α : Type} (l : List α) (P Q : α → Bool) :
    (l.filter Q).find? P = l.find? (fun x => Q x && P x) := by
  induction l with
  | nil => rfl
  | cons x xs ih =>
    by_cases hQ : Q x = true
    · by_cases hP : P x = true
      · simp [List.filter_cons, hQ, hP]
      · simp [List.filter_cons, hQ, hP, ih]
    · simp [List.filter_cons, hQ, ih]

/-- The candidate order the specification prescribes for root
resolution: the input path, its parent, its grandparent, then each
immediate subdirectory of the input path. -/
def probeOrder (fs : FS) (p : Path) : List Path :=
  [p, p.dropLast, p.dropLast.dropLast] ++
    ((listdir fs p).filter (fun n => fs.isdir (p ++ [n]))).map (fun n => p ++ [n])

/-- C6: `yolo_root` returns exactly the first candidate of the probe
order (input, parent, grandparent, then immediate subdirectories) for
which some `images/<s>` split directory exists, and `none` when no
candidate qualifies (`find?` is `none`); in particular a folder that
does not itself qualify but whose parent does resolves to the parent. -/
theorem yolo_root_probe_order (fs : FS) (p : Path) (hp : fs.isdir p = true) :
    yolo_root fs p = (probeOrder fs p).find? (fun c => hasSplitImages fs c) ∧
    (hasSplitImages fs p = false → hasSplitImages fs p.dropLast = true →
      yolo_root fs p = some p.dropLast) := by
  constructor
  · unfold yolo_root probeOrder
    rw [List.find?_append]
    cases hfind : [p, p.dropLast, p.dropLast.dropLast].find?
        (fun c => hasSplitImages fs c) with
    | some c => simp [Option.or]
    | none =>
      rw [if_pos hp]
      rw [List.find?_map, find?_filter]
      simp [Option.or, Function.comp]
  · intro h1 h2
    unfold yolo_root
    rw [List.find?_cons_of_neg _ (by simp [h1]),
      List.find?_cons_of_pos _ h2]

/-- Witness for C6: a folder `/a/b` that does not qualify while its
parent `/a` contains `images/train` resolves to the parent. -/
theorem yolo_root_probe_order_witness :
    yolo_root
        ⟨[], [["a"], ["a", "b"], ["a", "images"], ["a", "images", "train"]]⟩
        ["a", "b"] = some ["a"] :=
  (yolo_root_probe_order
      ⟨[], [["a"], ["a", "b"], ["a", "images"], ["a", "images", "train"]]⟩
      ["a", "b"] (by decide)).2 (by decide) (by decide)

/-! Soft delete (C7, C10). -/

theorem append_ne_append (root : Path) (a b : List String) (h : ¬ a = b) :
    ¬ (root ++ a = root ++ b) :=
  fun hh => h (List.append_cancel_left hh)

/-- The per-extension label move loop of `remove_image` does not touch
any path other than the four label source/destination paths. -/
theorem getFile_label_fold (fs : FS) (root : Path) (split base : String)
    (q : Path)
    (h1 : q ≠ root ++ ["labels", split, base ++ ".txt"])
    (h2 : q ≠ root ++ ["labels", split, base ++ ".json"])
    (h3 : q ≠ root ++ ["removed", split, "labels"] ++ [base ++ ".txt"])
    (h4 : q ≠ root ++ ["removed", split, "labels"] ++ [base ++ ".json"]) :
    (([".txt", ".json"] : List String).foldl
      (fun acc ext =>
        if acc.isfile (root ++ ["labels", split, base ++ ext]) = true
        then acc.move (root ++ ["labels", split, base ++ ext])
          (root ++ ["removed", split, "labels"] ++ [base ++ ext])
        else acc) fs).getFile q = fs.getFile q := by
  simp only [List.foldl]
  split_ifs <;>
    simp only [getFile_move_other _ _ _ _ h1 h3, getFile_move_other _ _ _ _ h2 h4]

theorem dirs_label_fold (fs : FS) (root : Path) (split base : String) :
    (([".txt", ".json"] : List String).foldl
      (fun acc ext =>
        if acc.isfile (root ++ ["labels", split, base ++ ext]) = true
        then acc.move (root ++ ["labels", split, base ++ ext])
          (root ++ ["removed", split, "labels"] ++ [base ++ ext])
        else acc) fs).dirs = fs.dirs := by
  simp only [List.foldl]
  split_ifs <;> simp only [dirs_move]

/-- C7: with a project loaded, `remove_image` fails with `NotFound`
exactly when the image file does not exist; when it exists, the call
succeeds no matter whether any label file is present, and the image
content ends up at `removed/<split>/images/<basename>`. -/
theorem remove_image_notFound_iff (st : AppState) (fs : FS) (img : Path)
    (split : String) (hroot : st.root ≠ []) :
    (remove_image st fs img split = Except.error Err.notFound ↔
      fs.getFile img = none) ∧
    (∀ v, fs.getFile img = some v →
      ∃ st' fs',
        remove_image st fs img split = Except.ok (st', fs', img.getLastD "") ∧
        fs'.getFile (st.root ++ ["removed", split, "images"] ++ [img.getLastD ""]) =
          some v) := by
  unfold remove_image
  rw [if_neg hroot]
  cases himg : fs.getFile img with
  | none =>
    refine ⟨by simp [himg], ?_⟩
    intro v hv
    cases hv
  | some v0 =>
    refine ⟨by simp [himg], ?_⟩
    intro v hv
    injection hv with hv
    refine ⟨_, _, rfl, ?_⟩
    rw [getFile_label_fold]
    · rw [getFile_move_of_some _ _ _ v0
        (by rw [getFile_mkdirs, getFile_mkdirs, himg])]
      rw [if_pos rfl, hv]
    · intro hh
      rw [List.append_assoc] at hh
      exact append_ne_append _ _ _ (by simp) hh
    · intro hh
      rw [List.append_assoc] at hh
      exact append_ne_append _ _ _ (by simp) hh
    · intro hh
      rw [List.append_assoc, List.append_assoc] at hh
      exact append_ne_append _ _ _ (by simp) hh
    · intro hh
      rw [List.append_assoc, List.append_assoc] at hh
      exact append_ne_append _ _ _ (by simp) hh

/-- Witness for C7 at a concrete project: removing an existing image
with no label file succeeds and lands in the removed area, and removing
a missing image reports `NotFound`. -/
theorem remove_image_notFound_iff_witness :
    (remove_image ⟨["p"], "images", "train", [["p", "images", "train", "a.jpg"]]⟩
        ⟨[], []⟩ ["p", "images", "train", "a.jpg"] "train" =
      Except.error Err.notFound) ∧
    (∃ st' fs',
      remove_image ⟨["p"], "images", "train", [["p", "images", "train", "a.jpg"]]⟩
          ⟨[(["p", "images", "train", "a.jpg"], FileData.image 8 8)], []⟩
          ["p", "images", "train", "a.jpg"] "train" =
        Except.ok (st', fs', (["p", "images", "train", "a.jpg"] : Path).getLastD "") ∧
      fs'.getFile ((["p"] : Path) ++ ["removed", "train", "images"] ++
          [(["p", "images", "train", "a.jpg"] : Path).getLastD ""]) =
        some (FileData.image 8 8)) :=
  ⟨((remove_image_notFound_iff
        ⟨["p"], "images", "train", [["p", "images", "train", "a.jpg"]]⟩
        ⟨[], []⟩ ["p", "images", "train", "a.jpg"] "train" (by decide)).1).mpr rfl,
   (remove_image_notFound_iff
        ⟨["p"], "images", "train", [["p", "images", "train", "a.jpg"]]⟩
        ⟨[(["p", "images", "train", "a.jpg"], FileData.image 8 8)], []⟩
        ["p", "images", "train", "a.jpg"] "train" (by decide)).2
     (FileData.image 8 8) rfl⟩

theorem isdir_label_fold (fs : FS) (root : Path) (split base : String)
    (q : Path) :
    (([".txt", ".json"] : List String).foldl
      (fun acc ext =>
        if acc.isfile (root ++ ["labels", split, base ++ ext]) = true
        then acc.move (root ++ ["labels", split, base ++ ext])
          (root ++ ["removed", split, "labels"] ++ [base ++ ext])
        else acc) fs).isdir q = fs.isdir q := by
  simp only [FS.isdir, dirs_label_fold]

/-- C10: in a flat-mode project (`images/<split>` is not a directory
under the root) `remove_image` moves the image but does not refresh the
cached image list: the returned state's `images` field is exactly the
previous one, so the returned list still contains the removed image's
path. -/
theorem remove_image_flat_frame (st : AppState) (fs : FS) (img : Path)
    (split : String) (hroot : st.root ≠ [])
    (hflat : fs.isdir (st.root ++ ["images", split]) = false)
    (v : FileData) (himg : fs.getFile img = some v)
    (hmem : img ∈ st.images) :
    ∃ st' fs',
      remove_image st fs img split = Except.ok (st', fs', img.getLastD "") ∧
      st'.images = st.images ∧ img ∈ st'.images := by
  unfold remove_image
  rw [if_neg hroot, himg]
  have hnp1 : ¬ (st.root ++ ["images", split] <+:
      st.root ++ ["removed", split, "images"]) := by
    intro hh
    rcases List.cons_prefix_cons.mp ((List.prefix_append_right_inj st.root).mp hh)
      with ⟨h1, _⟩
    simp at h1
  have hnp2 : ¬ (st.root ++ ["images", split] <+:
      st.root ++ ["removed", split, "labels"]) := by
    intro hh
    rcases List.cons_prefix_cons.mp ((List.prefix_append_right_inj st.root).mp hh)
      with ⟨h1, _⟩
    simp at h1
  refine ⟨_, _, rfl, ?_, ?_⟩
  · rw [isdir_label_fold, isdir_move, isdir_mkdirs, isdir_mkdirs]
    simp [hnp1, hnp2, hflat]
  · rw [isdir_label_fold, isdir_move, isdir_mkdirs, isdir_mkdirs]
    simp [hnp1, hnp2, hflat, hmem]

/-- Witness for C10: a flat project with two images; removing one
returns a state whose list still contains the removed path. -/
theorem remove_image_flat_frame_witness :
    ∃ st' fs',
      remove_image ⟨["p"], "images", "train", [["p", "a.jpg"], ["p", "b.jpg"]]⟩
          ⟨[(["p", "a.jpg"], FileData.image 4 4), (["p", "b.jpg"], FileData.image 4 4)],
            [["p"]]⟩
          ["p", "a.jpg"] "train" =
        Except.ok (st', fs', (["p", "a.jpg"] : Path).getLastD "") ∧
      st'.images = [["p", "a.jpg"], ["p", "b.jpg"]] ∧
      (["p", "a.jpg"] : Path) ∈ st'.images :=
  remove_image_flat_frame
    ⟨["p"], "images", "train", [["p", "a.jpg"], ["p", "b.jpg"]]⟩
    ⟨[(["p", "a.jpg"], FileData.image 4 4), (["p", "b.jpg"], FileData.image 4 4)],
      [["p"]]⟩
    ["p", "a.jpg"] "train" (by decide) (by decide) (FileData.image 4 4) rfl
    (by decide)

/-! Split selection on open (C8). -/

theorem list_images_files_eq (fs1 fs2 : FS) (h : fs1.files = fs2.files)
    (d : Path) : list_images fs1 d = list_images fs2 d := by
  unfold list_images dirEntryNames
  rw [h]

theorem ensure_labels_files (fs : FS) (root : Path) :
    (ensure_labels fs root).files = fs.files := by
  simp only [ensure_labels, List.foldl]
  split_ifs <;> rfl

theorem isdir_ensure_labels_images (fs : FS) (root : Path) (s : String) :
    (ensure_labels fs root).isdir (root ++ ["images", s]) =
      fs.isdir (root ++ ["images", s]) := by
  have hpre : ∀ s' : String,
      ¬ (root ++ ["images", s] <+: root ++ ["labels", s']) := by
    intro s' hh
    rcases List.cons_prefix_cons.mp ((List.prefix_append_right_inj root).mp hh)
      with ⟨h1, _⟩
    simp at h1
  simp only [ensure_labels, List.foldl]
  split_ifs <;> simp [isdir_mkdirs, hpre]

theorem splitFiles_ensure_labels (fs : FS) (rootp : Path) :
    splitFiles (ensure_labels fs rootp) rootp = splitFiles fs rootp := by
  unfold splitFiles presentSplits
  rw [List.filter_congr (fun s _ => isdir_ensure_labels_images fs rootp s)]
  exact List.map_congr_left (fun s _ => by
    rw [list_images_files_eq (ensure_labels fs rootp) fs
      (ensure_labels_files fs rootp)])

/-- The split-selection cascade as the specification words it: `train`
when present and non-empty; else the first non-empty present split in
the order `train`, `val`, `test`; else the first present split in that
order; else `train`. -/
def specSelectSplit (fs : FS) (rootp : Path) : String :=
  if fs.isdir (rootp ++ ["images", "train"]) = true ∧
      list_images fs (rootp ++ ["images", "train"]) ≠ [] then "train"
  else
    match (presentSplits fs rootp).filter
        (fun s => ¬ (list_images fs (rootp ++ ["images", s])).isEmpty) with
    | s :: _ => s
    | [] =>
      match presentSplits fs rootp with
      | s :: _ => s
      | [] => "train"

theorem nonEmpty_splitFiles_gen (fs : FS) (rootp : Path) (l : List String) :
    ((l.map (fun s => (s, list_images fs (rootp ++ ["images", s])))).filter
        (fun e => ¬ e.2.isEmpty)).map (fun e => e.1) =
      l.filter (fun s => ¬ (list_images fs (rootp ++ ["images", s])).isEmpty) := by
  induction l with
  | nil => rfl
  | cons s ss ih =>
    by_cases h : list_images fs (rootp ++ ["images", s]) = [] <;>
      · simp only [List.map_cons, List.filter_cons]
        simp [h]
        simp only [decide_not] at ih ⊢
        simp at ih ⊢
        try exact ih
        try rw [ih]

theorem nonEmpty_splitFiles (fs : FS) (rootp : Path) :
    ((splitFiles fs rootp).filter (fun e => ¬ e.2.isEmpty)).map (fun e => e.1) =
      (presentSplits fs rootp).filter
        (fun s => ¬ (list_images fs (rootp ++ ["images", s])).isEmpty) :=
  nonEmpty_splitFiles_gen fs rootp (presentSplits fs rootp)

theorem chooseSplit_eq_spec (fs : FS) (rootp : Path) :
    chooseSplit (splitFiles fs rootp) = specSelectSplit fs rootp := by
  have hcond : ("train" ∈ ((splitFiles fs rootp).filter
        (fun e => ¬ e.2.isEmpty)).map (fun e => e.1)) ↔
      (fs.isdir (rootp ++ ["images", "train"]) = true ∧
        list_images fs (rootp ++ ["images", "train"]) ≠ []) := by
    rw [nonEmpty_splitFiles, List.mem_filter]
    unfold presentSplits
    rw [List.mem_filter]
    simp [List.isEmpty_iff]
  unfold chooseSplit specSelectSplit
  by_cases hc : fs.isdir (rootp ++ ["images", "train"]) = true ∧
      list_images fs (rootp ++ ["images", "train"]) ≠ []
  · rw [if_pos (hcond.mpr hc), if_pos hc]
  · rw [if_neg (fun hh => hc (hcond.mp hh)), if_neg hc, nonEmpty_splitFiles]
    cases hf : (presentSplits fs rootp).filter
        (fun s => ¬ (list_images fs (rootp ++ ["images", s])).isEmpty) with
    | cons s rest => rfl
    | nil =>
      unfold splitFiles
      cases hps : presentSplits fs rootp with
      | nil => rfl
      | cons s ss => rfl

theorem specSelectSplit_mem (fs : FS) (rootp : Path) :
    specSelectSplit fs rootp ∈ (["train", "val", "test"] : List String) := by
  unfold specSelectSplit
  split_ifs with h
  · simp
  · cases hf : (presentSplits fs rootp).filter
        (fun s => ¬ (list_images fs (rootp ++ ["images", s])).isEmpty) with
    | cons s rest =>
      have hs : s ∈ (presentSplits fs rootp).filter
          (fun s => ¬ (list_images fs (rootp ++ ["images", s])).isEmpty) := by
        rw [hf]; simp
      have hs2 := List.mem_of_mem_filter hs
      unfold presentSplits at hs2
      exact List.mem_of_mem_filter hs2
    | nil =>
      cases hp : presentSplits fs rootp with
      | nil => simp
      | cons s ss =>
        have hs : s ∈ presentSplits fs rootp := by rw [hp]; simp
        unfold presentSplits at hs
        exact List.mem_of_mem_filter hs

theorem assocGet_splitFiles (fs : FS) (rootp : Path) (s : String)
    (hs : s ∈ (["train", "val", "test"] : List String)) :
    assocGet (splitFiles fs rootp) s =
      if fs.isdir (rootp ++ ["images", s]) = true
      then list_images fs (rootp ++ ["images", s]) else [] := by
  unfold assocGet splitFiles presentSplits
  rw [List.find?_map, find?_filter]
  simp only [List.mem_cons, List.not_mem_nil, or_false] at hs
  rcases hs with rfl | rfl | rfl
  · by_cases h : fs.isdir (rootp ++ ["images", "train"]) = true <;>
      simp [List.find?_cons, h, Function.comp]
  · by_cases h : fs.isdir (rootp ++ ["images", "val"]) = true <;>
      by_cases h2 : fs.isdir (rootp ++ ["images", "train"]) = true <;>
        simp [List.find?_cons, h, h2, Function.comp]
  · by_cases h : fs.isdir (rootp ++ ["images", "test"]) = true <;>
      by_cases h2 : fs.isdir (rootp ++ ["images", "train"]) = true <;>
        by_cases h3 : fs.isdir (rootp ++ ["images", "val"]) = true <;>
          simp [List.find?_cons, h, h2, h3, Function.comp]

/-- C8: opening a split-structured project (the resolved root has an
`images/` directory) selects the active split by the cascade: `train`
if present and non-empty, else the first non-empty present split in
order `train`, `val`, `test`, else the first present split, else
`train`; and caches that split's (possibly empty) sorted image list. -/
theorem open_project_split_selection (st : AppState) (fs : FS) (path : Path)
    (mode : String) (hdir : fs.isdir path = true)
    (himg : fs.isdir (open_root_choice fs path mode ++ ["images"]) = true) :
    ∃ st' fs',
      open_project st fs path mode = Except.ok (st', fs') ∧
      st'.split = specSelectSplit fs (open_root_choice fs path mode) ∧
      st'.images =
        (if fs.isdir (open_root_choice fs path mode ++
              ["images", specSelectSplit fs (open_root_choice fs path mode)]) = true
         then list_images fs (open_root_choice fs path mode ++
           ["images", specSelectSplit fs (open_root_choice fs path mode)])
         else []) := by
  unfold open_project
  rw [if_neg (by simp [hdir]), if_pos himg]
  refine ⟨_, _, rfl, ?_, ?_⟩
  · show chooseSplit (splitFiles (ensure_labels fs _) _) = _
    rw [splitFiles_ensure_labels, chooseSplit_eq_spec]
  · show assocGet (splitFiles (ensure_labels fs _) _)
      (chooseSplit (splitFiles (ensure_labels fs _) _)) = _
    rw [splitFiles_ensure_labels, chooseSplit_eq_spec]
    exact assocGet_splitFiles fs _ _ (specSelectSplit_mem fs _)

/-- Witness for C8: a project whose only present split is a non-empty
`val` opens with active split `val` and its image list cached. -/
theorem open_project_split_selection_witness :
    ∃ st' fs',
      open_project ⟨[], "images", "train", []⟩
          ⟨[(["p", "images", "val", "a.jpg"], FileData.image 2 2)],
            [["p"], ["p", "images"], ["p", "images", "val"]]⟩
          ["p"] "yolo" =
        Except.ok (st', fs') ∧
      st'.split = specSelectSplit
        ⟨[(["p", "images", "val", "a.jpg"], FileData.image 2 2)],
          [["p"], ["p", "images"], ["p", "images", "val"]]⟩
        (open_root_choice
          ⟨[(["p", "images", "val", "a.jpg"], FileData.image 2 2)],
            [["p"], ["p", "images"], ["p", "images", "val"]]⟩
          ["p"] "yolo") ∧
      st'.images =
        (if FS.isdir
              ⟨[(["p", "images", "val", "a.jpg"], FileData.image 2 2)],
                [["p"], ["p", "images"], ["p", "images", "val"]]⟩
              (open_root_choice
                ⟨[(["p", "images", "val", "a.jpg"], FileData.image 2 2)],
                  [["p"], ["p", "images"], ["p", "images", "val"]]⟩
                ["p"] "yolo" ++
                ["images", specSelectSplit
                  ⟨[(["p", "images", "val", "a.jpg"], FileData.image 2 2)],
                    [["p"], ["p", "images"], ["p", "images", "val"]]⟩
                  (open_root_choice
                    ⟨[(["p", "images", "val", "a.jpg"], FileData.image 2 2)],
                      [["p"], ["p", "images"], ["p", "images", "val"]]⟩
                    ["p"] "yolo")]) = true
         then list_images
            ⟨[(["p", "images", "val", "a.jpg"], FileData.image 2 2)],
              [["p"], ["p", "images"], ["p", "images", "val"]]⟩
            (open_root_choice
              ⟨[(["p", "images", "val", "a.jpg"], FileData.image 2 2)],
                [["p"], ["p", "images"], ["p", "images", "val"]]⟩
              ["p"] "yolo" ++
              ["images", specSelectSplit
                ⟨[(["p", "images", "val", "a.jpg"], FileData.image 2 2)],
                  [["p"], ["p", "images"], ["p", "images", "val"]]⟩
                (open_root_choice
                  ⟨[(["p", "images", "val", "a.jpg"], FileData.image 2 2)],
                    [["p"], ["p", "images"], ["p", "images", "val"]]⟩
                  ["p"] "yolo")])
         else []) :=
  open_project_split_selection ⟨[], "images", "train", []⟩
    ⟨[(["p", "images", "val", "a.jpg"], FileData.image 2 2)],
      [["p"], ["p", "images"], ["p", "images", "val"]]⟩
    ["p"] "yolo" (by decide) (by decide)

/-! Export format dispatch (C5). -/

/-- C5 counterexample: exporting with the unrecognized format string
`"CSV"` does not fail with any error: it takes the JSON-manifest branch,
returns success with the entry count, and writes
`out/annotations/train.json`. -/
theorem export_all_csv_produces_manifest :
    ∃ fsr,
      export_all ⟨["p"], "images", "train", []⟩
          ⟨[(["p", "a.jpg"], FileData.image 10 10)], [["p"]]⟩
          ["out"] "CSV" = Except.ok (fsr, 1) ∧
      fsr.getFile ["out", "annotations", "train.json"] =
        some (FileData.manifest [⟨"a.jpg", "train", 10, 10, []⟩]) :=
  ⟨_, rfl, rfl⟩

/-- C5 (amended): `export_all` compares the format string only against
`"YOLO (.txt)"`; every other format string (unrecognized ones included)
behaves exactly like the JSON-manifest format — there is no
`UnsupportedFormat` error. -/
theorem export_all_unknown_format_is_json (st : AppState) (fs : FS)
    (out_dir : Path) (fmt : String) (hfmt : fmt ≠ "YOLO (.txt)") :
    export_all st fs out_dir fmt = export_all st fs out_dir "JSON" := by
  unfold export_all
  by_cases hroot : st.root = []
  · rw [if_pos hroot, if_pos hroot]
  · rw [if_neg hroot, if_neg hroot, if_neg hfmt,
      if_neg (by decide : ¬ ("JSON" : String) = "YOLO (.txt)")]

/-- Witness for C5 (amended) at the concrete `"CSV"` format. -/
theorem export_all_unknown_format_is_json_witness :
    export_all ⟨["p"], "images", "train", []⟩
        ⟨[(["p", "a.jpg"], FileData.image 10 10)], [["p"]]⟩
        ["out"] "CSV" =
      export_all ⟨["p"], "images", "train", []⟩
        ⟨[(["p", "a.jpg"], FileData.image 10 10)], [["p"]]⟩
        ["out"] "JSON" :=
  export_all_unknown_format_is_json ⟨["p"], "images", "train", []⟩
    ⟨[(["p", "a.jpg"], FileData.image 10 10)], [["p"]]⟩
    ["out"] "CSV" (by decide)

/-! Listing extensionality (for C3). -/

theorem getLastD_append_singleton (l : List String) (a : String) :
    (l ++ [a]).getLastD "" = a := by
  rw [List.getLastD_eq_getLast?, List.getLast?_concat]
  rfl

theorem mem_dirEntryNames_aux (l : List (Path × FileData)) (dir : Path)
    (n : String) :
    n ∈ (l.map (fun e => e.1)).filterMap
        (fun p => if p.dropLast = dir then p.getLast? else none) ↔
      (lookupFile l (dir ++ [n])).isSome = true := by
  induction l with
  | nil => simp [lookupFile]
  | cons e rest ih =>
    simp only [List.map_cons, List.filterMap_cons, lookupFile]
    by_cases he : e.1 = dir ++ [n]
    · rw [he, List.dropLast_concat, List.getLast?_concat, if_pos rfl, if_pos rfl]
      exact ⟨fun _ => rfl, fun _ => List.mem_cons_self n _⟩
    · rw [if_neg he]
      by_cases hd : e.1.dropLast = dir
      · rw [if_pos hd]
        cases hL : e.1.getLast? with
        | none => exact ih
        | some m =>
          rcases List.getLast?_eq_some_iff.mp hL with ⟨t, het⟩
          rw [het, List.dropLast_concat] at hd
          subst hd
          have hmn : ¬ n = m := by
            intro hnm
            exact he (by rw [het, hnm])
          simp only [List.mem_cons]
          constructor
          · intro hc
            rcases hc with hc | hc
            · exact absurd hc hmn
            · exact ih.mp hc
          · intro hc
            exact Or.inr (ih.mpr hc)
      · rw [if_neg hd]
        exact ih

theorem mem_dirEntryNames (fs : FS) (dir : Path) (n : String) :
    n ∈ dirEntryNames fs dir ↔ (fs.getFile (dir ++ [n])).isSome = true :=
  mem_dirEntryNames_aux fs.files dir n

/-- Two filesystems with the same file presence directly under `dir`
produce the same `list_images dir` listing. -/
theorem list_images_ext (fs1 fs2 : FS) (dir : Path)
    (h : ∀ n : String,
      (fs1.getFile (dir ++ [n])).isSome = (fs2.getFile (dir ++ [n])).isSome) :
    list_images fs1 dir = list_images fs2 dir := by
  unfold list_images
  congr 1
  apply sortLe_eq_of_perm
  apply (List.perm_ext_iff_of_nodup
    (List.Nodup.filter _ (List.nodup_dedup _))
    (List.Nodup.filter _ (List.nodup_dedup _))).mpr
  intro n
  simp only [List.mem_filter, List.mem_dedup]
  rw [mem_dirEntryNames, mem_dirEntryNames, h n]

/-! Remove / restore round trip (C3). -/

theorem str_append_txt_ne_json (b : String) : ¬ (b ++ ".txt" = b ++ ".json") := by
  intro h
  have h2 := congrArg String.data h
  rw [String.data_append, String.data_append] at h2
  have h3 := List.append_cancel_left h2
  exact absurd h3 (by decide)

theorem ne_flat_of (root : Path) (x y : List String) (q : Path)
    (h : q ≠ root ++ (x ++ y)) : q ≠ (root ++ x) ++ y := fun hh =>
  h (by rw [List.append_assoc] at hh; exact hh)

theorem eq_flat (root : Path) (x y : List String) :
    root ++ (x ++ y) = (root ++ x) ++ y := (List.append_assoc root x y).symm

theorem getFile_restore_fold (fs : FS) (root : Path) (split base : String)
    (q : Path)
    (h1 : q ≠ root ++ ["removed", split, "labels", base ++ ".txt"])
    (h2 : q ≠ root ++ ["removed", split, "labels", base ++ ".json"])
    (h3 : q ≠ root ++ ["labels", split] ++ [base ++ ".txt"])
    (h4 : q ≠ root ++ ["labels", split] ++ [base ++ ".json"]) :
    (([".txt", ".json"] : List String).foldl
      (fun acc ext =>
        if acc.isfile (root ++ ["removed", split, "labels", base ++ ext]) = true
        then acc.move (root ++ ["removed", split, "labels", base ++ ext])
          (root ++ ["labels", split] ++ [base ++ ext])
        else acc) fs).getFile q = fs.getFile q := by
  simp only [List.foldl]
  split_ifs <;>
    simp only [getFile_move_other _ _ _ _ h1 h3, getFile_move_other _ _ _ _ h2 h4]

theorem dirs_restore_fold (fs : FS) (root : Path) (split base : String) :
    (([".txt", ".json"] : List String).foldl
      (fun acc ext =>
        if acc.isfile (root ++ ["removed", split, "labels", base ++ ext]) = true
        then acc.move (root ++ ["removed", split, "labels", base ++ ext])
          (root ++ ["labels", split] ++ [base ++ ext])
        else acc) fs).dirs = fs.dirs := by
  simp only [List.foldl]
  split_ifs <;> simp only [dirs_move]


/-- The remove-side label fold puts the `.txt` label's content at its
removed destination when the source label exists. -/
theorem label_fold_dst_txt (acc : FS) (root : Path) (split base : String)
    (vl : FileData)
    (hsrc : acc.getFile (root ++ ["labels", split, base ++ ".txt"]) = some vl) :
    (([".txt", ".json"] : List String).foldl
      (fun a ext =>
        if a.isfile (root ++ ["labels", split, base ++ ext]) = true
        then a.move (root ++ ["labels", split, base ++ ext])
          (root ++ ["removed", split, "labels"] ++ [base ++ ext])
        else a) acc).getFile
      (root ++ ["removed", split, "labels", base ++ ".txt"]) = some vl := by
  have d1 : root ++ ["removed", split, "labels", base ++ ".txt"] ≠
      root ++ ["labels", split, base ++ ".json"] :=
    append_ne_append _ _ _ (by simp)
  have d2 : root ++ ["removed", split, "labels", base ++ ".txt"] ≠
      root ++ ["removed", split, "labels"] ++ [base ++ ".json"] :=
    ne_flat_of root ["removed", split, "labels"] [base ++ ".json"] _
      (append_ne_append _ _ _ (by
        intro hh
        simp only [List.cons_append, List.nil_append, List.cons.injEq,
          eq_self_iff_true, true_and, and_true] at hh
        exact str_append_txt_ne_json base hh))
  have hq : root ++ ["removed", split, "labels", base ++ ".txt"] =
      root ++ ["removed", split, "labels"] ++ [base ++ ".txt"] :=
    eq_flat root ["removed", split, "labels"] [base ++ ".txt"]
  simp only [List.foldl]
  rw [if_pos ((isfile_iff_getFile _ _).mpr ⟨vl, hsrc⟩)]
  split_ifs with hc
  · rw [getFile_move_other _ _ _ _ d1 d2,
      getFile_move_of_some _ _ _ vl hsrc, if_pos hq]
  · rw [getFile_move_of_some _ _ _ vl hsrc, if_pos hq]

/-- The restore-side label fold puts the removed `.txt` label's content
back at its label destination when the removed source exists. -/
theorem restore_fold_dst_txt (acc : FS) (root : Path) (split base : String)
    (vl : FileData)
    (hsrc : acc.getFile (root ++ ["removed", split, "labels", base ++ ".txt"]) =
      some vl) :
    (([".txt", ".json"] : List String).foldl
      (fun a ext =>
        if a.isfile (root ++ ["removed", split, "labels", base ++ ext]) = true
        then a.move (root ++ ["removed", split, "labels", base ++ ext])
          (root ++ ["labels", split] ++ [base ++ ext])
        else a) acc).getFile
      (root ++ ["labels", split, base ++ ".txt"]) = some vl := by
  have d1 : root ++ ["labels", split, base ++ ".txt"] ≠
      root ++ ["removed", split, "labels", base ++ ".json"] :=
    append_ne_append _ _ _ (by simp)
  have d2 : root ++ ["labels", split, base ++ ".txt"] ≠
      root ++ ["labels", split] ++ [base ++ ".json"] :=
    ne_flat_of root ["labels", split] [base ++ ".json"] _
      (append_ne_append _ _ _ (by
        intro hh
        simp only [List.cons_append, List.nil_append, List.cons.injEq,
          eq_self_iff_true, true_and, and_true] at hh
        exact str_append_txt_ne_json base hh))
  have hq : root ++ ["labels", split, base ++ ".txt"] =
      root ++ ["labels", split] ++ [base ++ ".txt"] :=
    eq_flat root ["labels", split] [base ++ ".txt"]
  simp only [List.foldl]
  rw [if_pos ((isfile_iff_getFile _ _).mpr ⟨vl, hsrc⟩)]
  split_ifs with hc
  · rw [getFile_move_other _ _ _ _ d1 d2,
      getFile_move_of_some _ _ _ vl hsrc, if_pos hq]
  · rw [getFile_move_of_some _ _ _ vl hsrc, if_pos hq]


/-- What `remove_image` does when both the image and its `.txt` label
exist: success returning the basename, root unchanged, both files moved
into the removed area, and every path other than the six image/label
source and destination paths untouched. -/
theorem remove_image_step (st : AppState) (fs : FS) (s name : String)
    (hroot : st.root ≠ []) (vimg vlbl : FileData)
    (himg : fs.getFile (st.root ++ ["images", s, name]) = some vimg)
    (hlbl : fs.getFile (st.root ++ ["labels", s, splitextStem name ++ ".txt"]) =
      some vlbl) :
    ∃ st1 fs1,
      remove_image st fs (st.root ++ ["images", s, name]) s =
        Except.ok (st1, fs1, name) ∧
      st1.root = st.root ∧
      fs1.getFile (st.root ++ ["removed", s, "images", name]) = some vimg ∧
      fs1.getFile (st.root ++ ["removed", s, "labels",
        splitextStem name ++ ".txt"]) = some vlbl ∧
      (∀ q : Path,
        q ≠ st.root ++ ["images", s, name] →
        q ≠ st.root ++ ["removed", s, "images", name] →
        q ≠ st.root ++ ["labels", s, splitextStem name ++ ".txt"] →
        q ≠ st.root ++ ["labels", s, splitextStem name ++ ".json"] →
        q ≠ st.root ++ ["removed", s, "labels", splitextStem name ++ ".txt"] →
        q ≠ st.root ++ ["removed", s, "labels", splitextStem name ++ ".json"] →
        fs1.getFile q = fs.getFile q) := by
  have hname : (st.root ++ ["images", s, name]).getLastD "" = name := by
    rw [show st.root ++ ["images", s, name] = (st.root ++ ["images", s]) ++ [name]
      from eq_flat st.root ["images", s] [name]]
    exact getLastD_append_singleton _ _
  have hgmk : ∀ q : Path,
      ((fs.mkdirs (st.root ++ ["removed", s, "images"])).mkdirs
        (st.root ++ ["removed", s, "labels"])).getFile q = fs.getFile q :=
    fun q => by rw [getFile_mkdirs, getFile_mkdirs]
  have hm2 : ∀ q : Path,
      (((fs.mkdirs (st.root ++ ["removed", s, "images"])).mkdirs
          (st.root ++ ["removed", s, "labels"])).move
        (st.root ++ ["images", s, name])
        ((st.root ++ ["removed", s, "images"]) ++ [name])).getFile q =
      if q = (st.root ++ ["removed", s, "images"]) ++ [name] then some vimg
      else if q = st.root ++ ["images", s, name] then none
      else fs.getFile q := fun q => by
    rw [getFile_move_of_some _ _ _ vimg (by rw [hgmk]; exact himg), hgmk q]
  have hlblT2 : (((fs.mkdirs (st.root ++ ["removed", s, "images"])).mkdirs
          (st.root ++ ["removed", s, "labels"])).move
        (st.root ++ ["images", s, name])
        ((st.root ++ ["removed", s, "images"]) ++ [name])).getFile
        (st.root ++ ["labels", s, splitextStem name ++ ".txt"]) = some vlbl := by
    rw [hm2,
      if_neg (ne_flat_of st.root ["removed", s, "images"] [name] _
        (append_ne_append _ _ _ (by simp))),
      if_neg (append_ne_append _ _ _ (by simp))]
    exact hlbl
  unfold remove_image
  rw [if_neg hroot, himg, hname]
  refine ⟨_, _, rfl, ?_, ?_, ?_, ?_⟩
  · split_ifs <;> rfl
  · rw [getFile_label_fold _ _ _ _ _
      (append_ne_append _ _ _ (by simp))
      (append_ne_append _ _ _ (by simp))
      (ne_flat_of st.root ["removed", s, "labels"] [splitextStem name ++ ".txt"] _
        (append_ne_append _ _ _ (by simp)))
      (ne_flat_of st.root ["removed", s, "labels"] [splitextStem name ++ ".json"] _
        (append_ne_append _ _ _ (by simp))),
      hm2,
      if_pos (show st.root ++ ["removed", s, "images", name] =
        (st.root ++ ["removed", s, "images"]) ++ [name]
        from eq_flat st.root ["removed", s, "images"] [name])]
  · exact label_fold_dst_txt _ st.root s (splitextStem name) vlbl hlblT2
  · intro q h1 h2 h3 h4 h5 h6
    rw [getFile_label_fold _ _ _ _ _ h3 h4
      (ne_flat_of st.root ["removed", s, "labels"] [splitextStem name ++ ".txt"] q h5)
      (ne_flat_of st.root ["removed", s, "labels"] [splitextStem name ++ ".json"] q h6),
      hm2,
      if_neg (ne_flat_of st.root ["removed", s, "images"] [name] q h2),
      if_neg h1]


/-- What `restore_image` does when the removed image and its removed
`.txt` label exist: success, both files back at their original paths,
the cached list refreshed from the resulting filesystem, and every
other path untouched. -/
theorem restore_image_step (st1 : AppState) (fs1 : FS) (s name : String)
    (hne : st1.root ≠ []) (vimg vlbl : FileData)
    (hremI : fs1.getFile (st1.root ++ ["removed", s, "images", name]) = some vimg)
    (hremT : fs1.getFile (st1.root ++ ["removed", s, "labels",
      splitextStem name ++ ".txt"]) = some vlbl) :
    ∃ st2 fs2,
      restore_image st1 fs1 s name = Except.ok (st2, fs2, name) ∧
      fs2.getFile (st1.root ++ ["images", s, name]) = some vimg ∧
      fs2.getFile (st1.root ++ ["labels", s, splitextStem name ++ ".txt"]) =
        some vlbl ∧
      st2.images = list_images fs2 (st1.root ++ ["images", s]) ∧
      (∀ q : Path,
        q ≠ st1.root ++ ["images", s, name] →
        q ≠ st1.root ++ ["removed", s, "images", name] →
        q ≠ st1.root ++ ["labels", s, splitextStem name ++ ".txt"] →
        q ≠ st1.root ++ ["labels", s, splitextStem name ++ ".json"] →
        q ≠ st1.root ++ ["removed", s, "labels", splitextStem name ++ ".txt"] →
        q ≠ st1.root ++ ["removed", s, "labels", splitextStem name ++ ".json"] →
        fs2.getFile q = fs1.getFile q) := by
  have hgmk : ∀ q : Path,
      ((fs1.mkdirs (st1.root ++ ["images", s])).mkdirs
        (st1.root ++ ["labels", s])).getFile q = fs1.getFile q :=
    fun q => by rw [getFile_mkdirs, getFile_mkdirs]
  have hm2 : ∀ q : Path,
      (((fs1.mkdirs (st1.root ++ ["images", s])).mkdirs
          (st1.root ++ ["labels", s])).move
        (st1.root ++ ["removed", s, "images", name])
        ((st1.root ++ ["images", s]) ++ [name])).getFile q =
      if q = (st1.root ++ ["images", s]) ++ [name] then some vimg
      else if q = st1.root ++ ["removed", s, "images", name] then none
      else fs1.getFile q := fun q => by
    rw [getFile_move_of_some _ _ _ vimg (by rw [hgmk]; exact hremI), hgmk q]
  have hremT2 : (((fs1.mkdirs (st1.root ++ ["images", s])).mkdirs
          (st1.root ++ ["labels", s])).move
        (st1.root ++ ["removed", s, "images", name])
        ((st1.root ++ ["images", s]) ++ [name])).getFile
        (st1.root ++ ["removed", s, "labels", splitextStem name ++ ".txt"]) =
        some vlbl := by
    rw [hm2,
      if_neg (ne_flat_of st1.root ["images", s] [name] _
        (append_ne_append _ _ _ (by simp))),
      if_neg (append_ne_append _ _ _ (by simp))]
    exact hremT
  unfold restore_image
  rw [if_neg hne,
    if_neg (by simp [FS.isfile, hremI] :
      ¬ ¬ (fs1.isfile (st1.root ++ ["removed", s, "images", name]) = true))]
  refine ⟨_, _, rfl, ?_, ?_, ?_, ?_⟩
  · rw [getFile_restore_fold _ _ _ _ _
      (append_ne_append _ _ _ (by simp))
      (append_ne_append _ _ _ (by simp))
      (ne_flat_of st1.root ["labels", s] [splitextStem name ++ ".txt"] _
        (append_ne_append _ _ _ (by simp)))
      (ne_flat_of st1.root ["labels", s] [splitextStem name ++ ".json"] _
        (append_ne_append _ _ _ (by simp))),
      hm2,
      if_pos (show st1.root ++ ["images", s, name] =
        (st1.root ++ ["images", s]) ++ [name]
        from eq_flat st1.root ["images", s] [name])]
  · exact restore_fold_dst_txt _ st1.root s (splitextStem name) vlbl hremT2
  · have hdir : (((".txt" :: [".json"] : List String).foldl
        (fun a ext =>
          if a.isfile (st1.root ++ ["removed", s, "labels",
              splitextStem name ++ ext]) = true
          then a.move (st1.root ++ ["removed", s, "labels",
              splitextStem name ++ ext])
            (st1.root ++ ["labels", s] ++ [splitextStem name ++ ext])
          else a)
        (((fs1.mkdirs (st1.root ++ ["images", s])).mkdirs
            (st1.root ++ ["labels", s])).move
          (st1.root ++ ["removed", s, "images", name])
          ((st1.root ++ ["images", s]) ++ [name]))).isdir
        (st1.root ++ ["images", s])) = true := by
      simp only [FS.isdir, dirs_restore_fold, dirs_move]
      simp [FS.mkdirs, List.mem_inits]
    rw [if_pos hdir]
  · intro q h1 h2 h3 h4 h5 h6
    rw [getFile_restore_fold _ _ _ _ _ h5 h6
      (ne_flat_of st1.root ["labels", s] [splitextStem name ++ ".txt"] q h3)
      (ne_flat_of st1.root ["labels", s] [splitextStem name ++ ".json"] q h4),
      hm2,
      if_neg (ne_flat_of st1.root ["images", s] [name] q h1),
      if_neg h2]


/-- C3: for an image present in split `s` with a `.txt` label, removing
and then restoring returns both files to their original paths with
their original content, and the cached active image list (in sync with
the filesystem before the remove, i.e. no concurrent mutation) is
identical to what it was before the remove. -/
theorem remove_then_restore (st : AppState) (fs : FS) (s name : String)
    (hroot : st.root ≠ []) (vimg vlbl : FileData)
    (himg : fs.getFile (st.root ++ ["images", s, name]) = some vimg)
    (hlbl : fs.getFile (st.root ++ ["labels", s, splitextStem name ++ ".txt"]) =
      some vlbl)
    (hcache : st.images = list_images fs (st.root ++ ["images", s])) :
    ∃ st1 fs1 st2 fs2,
      remove_image st fs (st.root ++ ["images", s, name]) s =
        Except.ok (st1, fs1, name) ∧
      restore_image st1 fs1 s name = Except.ok (st2, fs2, name) ∧
      fs2.getFile (st.root ++ ["images", s, name]) = some vimg ∧
      fs2.getFile (st.root ++ ["labels", s, splitextStem name ++ ".txt"]) =
        some vlbl ∧
      st2.images = st.images := by
  obtain ⟨st1, fs1, hrem, hst1root, hremI, hremT, hpres1⟩ :=
    remove_image_step st fs s name hroot vimg vlbl himg hlbl
  obtain ⟨st2, fs2, hres, hg1, hg2, hlist, hpres2⟩ :=
    restore_image_step st1 fs1 s name (by rw [hst1root]; exact hroot) vimg vlbl
      (by rw [hst1root]; exact hremI) (by rw [hst1root]; exact hremT)
  rw [hst1root] at hg1 hg2 hlist hpres2
  refine ⟨st1, fs1, st2, fs2, hrem, hres, hg1, hg2, ?_⟩
  rw [hlist, hcache]
  apply list_images_ext
  intro n
  by_cases hn : n = name
  · subst hn
    rw [show (st.root ++ ["images", s]) ++ [n] = st.root ++ ["images", s, n]
      from (eq_flat st.root ["images", s] [n]).symm]
    rw [hg1, himg]
  · have hq1 : (st.root ++ ["images", s]) ++ [n] ≠
        st.root ++ ["images", s, name] := by
      intro hh
      rw [← eq_flat st.root ["images", s] [n]] at hh
      have h2 := List.append_cancel_left hh
      simp at h2
      exact hn h2
    have hq2 : (st.root ++ ["images", s]) ++ [n] ≠
        st.root ++ ["removed", s, "images", name] := by
      intro hh
      rw [← eq_flat st.root ["images", s] [n]] at hh
      have h2 := List.append_cancel_left hh
      simp at h2
    have hq3 : (st.root ++ ["images", s]) ++ [n] ≠
        st.root ++ ["labels", s, splitextStem name ++ ".txt"] := by
      intro hh
      rw [← eq_flat st.root ["images", s] [n]] at hh
      have h2 := List.append_cancel_left hh
      simp at h2
    have hq4 : (st.root ++ ["images", s]) ++ [n] ≠
        st.root ++ ["labels", s, splitextStem name ++ ".json"] := by
      intro hh
      rw [← eq_flat st.root ["images", s] [n]] at hh
      have h2 := List.append_cancel_left hh
      simp at h2
    have hq5 : (st.root ++ ["images", s]) ++ [n] ≠
        st.root ++ ["removed", s, "labels", splitextStem name ++ ".txt"] := by
      intro hh
      rw [← eq_flat st.root ["images", s] [n]] at hh
      have h2 := List.append_cancel_left hh
      simp at h2
    have hq6 : (st.root ++ ["images", s]) ++ [n] ≠
        st.root ++ ["removed", s, "labels", splitextStem name ++ ".json"] := by
      intro hh
      rw [← eq_flat st.root ["images", s] [n]] at hh
      have h2 := List.append_cancel_left hh
      simp at h2
    rw [hpres2 _ hq1 hq2 hq3 hq4 hq5 hq6, hpres1 _ hq1 hq2 hq3 hq4 hq5 hq6]

/-- Witness for C3: a one-image project with a label file; remove then
restore puts both files back and the cached list is unchanged. -/
theorem remove_then_restore_witness :
    ∃ st1 fs1 st2 fs2,
      remove_image
          ⟨["p"], "yolo", "train", [["p", "images", "train", "a.jpg"]]⟩
          ⟨[(["p", "images", "train", "a.jpg"], FileData.image 5 5),
            (["p", "labels", "train", "a.txt"],
             FileData.text [[Token.num 0, Token.num 1, Token.num 1,
               Token.num 1, Token.num 1]])],
            [["p"], ["p", "images"], ["p", "images", "train"]]⟩
          (["p"] ++ ["images", "train", "a.jpg"]) "train" =
        Except.ok (st1, fs1, "a.jpg") ∧
      restore_image st1 fs1 "train" "a.jpg" = Except.ok (st2, fs2, "a.jpg") ∧
      fs2.getFile (["p"] ++ ["images", "train", "a.jpg"]) =
        some (FileData.image 5 5) ∧
      fs2.getFile (["p"] ++ ["labels", "train", splitextStem "a.jpg" ++ ".txt"]) =
        some (FileData.text [[Token.num 0, Token.num 1, Token.num 1,
          Token.num 1, Token.num 1]]) ∧
      st2.images = [["p", "images", "train", "a.jpg"]] :=
  remove_then_restore
    ⟨["p"], "yolo", "train", [["p", "images", "train", "a.jpg"]]⟩
    ⟨[(["p", "images", "train", "a.jpg"], FileData.image 5 5),
      (["p", "labels", "train", "a.txt"],
       FileData.text [[Token.num 0, Token.num 1, Token.num 1,
         Token.num 1, Token.num 1]])],
      [["p"], ["p", "images"], ["p", "images", "train"]]⟩
    "train" "a.jpg" (by decide) (FileData.image 5 5)
    (FileData.text [[Token.num 0, Token.num 1, Token.num 1,
      Token.num 1, Token.num 1]])
    rfl rfl (by decide)

end App
